import Mathlib

/-!
Verification of the reminty core (tokenizer, structural parser,
variable-extraction engine, pattern detector) against its specification.

The Go sources are shallowly embedded: input text is modelled as a list of
characters (the sources index single-byte characters; all concrete inputs in
this development are ASCII, where the two views agree), Go slices become
`List`, Go mutable receivers become explicit state values threaded through
the functions, and loops whose bodies provably consume input are expressed
as structural recursion on the remaining input while loops without that
guarantee take an explicit fuel argument (`none` = the loop did not finish
within the given fuel; a loop that spins forever yields `none` for every
fuel value).
-/

namespace Reminty

/-- String-to-character-list shorthand used by every concrete statement. -/
@[reducible] def chars (s : String) : List Char := s.data

/-- Character class of Go `unicode.IsSpace` restricted to single-byte
(Latin-1) code points, the only ones the byte-indexing lexer feeds it. -/
def goIsSpace (c : Char) : Bool :=
  c = ' ' || c = '\t' || c = '\n' || c = '\x0b' || c = '\x0c' || c = '\r' ||
  c.toNat = 0x85 || c.toNat = 0xa0

/-- Character class of Go `unicode.IsDigit` restricted to single-byte code
points: exactly the ASCII digits. -/
def goIsDigit (c : Char) : Bool := '0' ≤ c && c ≤ '9'

/-- lexer.go isIdentStart. -/
def isIdentStart (c : Char) : Bool :=
  ('a' ≤ c && c ≤ 'z') || ('A' ≤ c && c ≤ 'Z') || c = '_' || c = '$'

/-- lexer.go isIdentChar (hyphen admitted for kebab-case attributes). -/
def isIdentChar (c : Char) : Bool :=
  isIdentStart c || ('0' ≤ c && c ≤ '9') || c = '-'

/-- Token kinds of lexer.go (TokenType constants, same order). -/
inductive TokenType where
  | TokenEOF
  | TokenError
  | TokenText
  | TokenWhitespace
  | TokenTagOpen
  | TokenTagClose
  | TokenTagSelfClose
  | TokenTagEnd
  | TokenIdent
  | TokenString
  | TokenEquals
  | TokenJSXExprOpen
  | TokenJSXExprClose
  | TokenDot
  | TokenLParen
  | TokenRParen
  | TokenArrow
  | TokenComma
  | TokenColon
  | TokenQuestion
  | TokenAmpAmp
  | TokenPipePipe
  | TokenSpread
  | TokenNumber
  | TokenTrue
  | TokenFalse
  | TokenNull
  | TokenUndefined
deriving DecidableEq

/-- lexer.go Token. The Go field `Type` is spelled `typ` (keyword). -/
structure Token where
  typ : TokenType
  value : List Char
  line : Nat
  column : Nat
  offset : Nat
deriving DecidableEq

/-- Lexer state: the not-yet-consumed input suffix plus the cursor fields of
lexer.go Lexer (`pos`, `line`, `column`). -/
structure LexState where
  rest : List Char
  pos : Nat
  line : Nat
  column : Nat
deriving DecidableEq

/-- Line/column update of Lexer.advance for one consumed character. -/
def advChar (p : Nat × Nat) (c : Char) : Nat × Nat :=
  if c = '\n' then (p.1 + 1, 1) else (p.1, p.2 + 1)

/-- Result of one scanToken dispatch: the consumed characters, the input
left over, and the emitted token's type and literal value. -/
structure ScanOut where
  consumed : List Char
  left : List Char
  typ : TokenType
  value : List Char

/-- Interior loop of lexer.go scanString, entered after the opening quote:
returns (characters consumed after the opening quote — including the closing
quote when found, input left over, value characters, terminated?).  An
escape consumes the backslash and the following character; the recorded
value is the raw text between the quotes. -/
def scanStringAux (quote : Char) : List Char → List Char × List Char × List Char × Bool
  | [] => ([], [], [], false)
  | c :: rest =>
    if c = '\\' then
      match rest with
      | [] => ([c], [], [c], false)
      | c2 :: rest2 =>
        let r := scanStringAux quote rest2
        (c :: c2 :: r.1, r.2.1, c :: c2 :: r.2.2.1, r.2.2.2)
    else if c = quote then
      ([c], rest, [], true)
    else
      let r := scanStringAux quote rest
      (c :: r.1, r.2.1, c :: r.2.2.1, r.2.2.2)

/-- One step of lexer.go scanToken at the head of the remaining input,
with the classification branches in source order. -/
def scanCore : List Char → ScanOut
  | [] => ⟨[], [], .TokenEOF, []⟩
  | s@(c :: rest) =>
    if goIsSpace c then
      ⟨s.takeWhile goIsSpace, s.dropWhile goIsSpace, .TokenWhitespace, s.takeWhile goIsSpace⟩
    else if c = '{' then ⟨[c], rest, .TokenJSXExprOpen, [c]⟩
    else if c = '}' then ⟨[c], rest, .TokenJSXExprClose, [c]⟩
    else if c = '<' then
      if rest.head? = some '/' then ⟨['<', '/'], rest.tail, .TokenTagEnd, ['<', '/']⟩
      else ⟨['<'], rest, .TokenTagOpen, ['<']⟩
    else if c = '/' ∧ rest.head? = some '>' then
      ⟨['/', '>'], rest.tail, .TokenTagSelfClose, ['/', '>']⟩
    else if c = '>' then ⟨[c], rest, .TokenTagClose, [c]⟩
    else if c = '=' then
      if rest.head? = some '>' then ⟨['=', '>'], rest.tail, .TokenArrow, ['=', '>']⟩
      else ⟨['='], rest, .TokenEquals, ['=']⟩
    else if c = '.' then
      if rest.take 2 = ['.', '.'] then ⟨['.', '.', '.'], rest.drop 2, .TokenSpread, ['.', '.', '.']⟩
      else ⟨['.'], rest, .TokenDot, ['.']⟩
    else if c = '(' then ⟨[c], rest, .TokenLParen, [c]⟩
    else if c = ')' then ⟨[c], rest, .TokenRParen, [c]⟩
    else if c = ',' then ⟨[c], rest, .TokenComma, [c]⟩
    else if c = ':' then ⟨[c], rest, .TokenColon, [c]⟩
    else if c = '?' then ⟨[c], rest, .TokenQuestion, [c]⟩
    else if c = '&' ∧ rest.head? = some '&' then
      ⟨['&', '&'], rest.tail, .TokenAmpAmp, ['&', '&']⟩
    else if c = '|' ∧ rest.head? = some '|' then
      ⟨['|', '|'], rest.tail, .TokenPipePipe, ['|', '|']⟩
    else if c = '"' ∨ c = '\x27' ∨ c = '\x60' then
      let r := scanStringAux c rest
      ⟨c :: r.1, r.2.1,
       if r.2.2.2 then .TokenString else .TokenError,
       if r.2.2.2 then r.2.2.1 else chars "unterminated string"⟩
    else if goIsDigit c then
      ⟨s.takeWhile (fun ch => goIsDigit ch || ch = '.'),
       s.dropWhile (fun ch => goIsDigit ch || ch = '.'), .TokenNumber,
       s.takeWhile (fun ch => goIsDigit ch || ch = '.')⟩
    else if isIdentStart c then
      let run := s.takeWhile isIdentChar
      ⟨run, s.dropWhile isIdentChar,
       if run = chars "true" then .TokenTrue
       else if run = chars "false" then .TokenFalse
       else if run = chars "null" then .TokenNull
       else if run = chars "undefined" then .TokenUndefined
       else .TokenIdent, run⟩
    else ⟨[c], rest, .TokenText, [c]⟩

/-- Lexer.emit builds the token from the state reached after the token's
characters have been consumed. -/
def mkToken (ty : TokenType) (v : List Char) (s : LexState) : Token :=
  ⟨ty, v, s.line, s.column, s.pos⟩

/-- Advance the lexer state over the characters `con` just consumed,
leaving `left` as the remaining input (Lexer.advance folded). -/
def lexConsume (s : LexState) (con left : List Char) : LexState :=
  let lc := con.foldl advChar (s.line, s.column)
  ⟨left, s.pos + con.length, lc.1, lc.2⟩

/-- One scanToken call: classify, consume, emit. -/
def scanToken (s : LexState) : Token × LexState :=
  let r := scanCore s.rest
  let s2 := lexConsume s r.consumed r.left
  (mkToken r.typ r.value s2, s2)

/-- The Tokenize loop: scan while input remains, then emit the single EOF
token.  The fuel is an upper bound on the number of scanToken calls; the
wrapper `Tokenize` passes the input length, which always suffices because
every scanToken call consumes at least one character. -/
def tokenizeLoop : Nat → LexState → List Token
  | 0, s => [mkToken .TokenEOF [] s]
  | fuel + 1, s =>
    match s.rest with
    | [] => [mkToken .TokenEOF [] s]
    | _ :: _ =>
      let r := scanToken s
      r.1 :: tokenizeLoop fuel r.2

/-- lexer.go Tokenize: scan the whole input starting at line 1, column 1. -/
def Tokenize (input : List Char) : List Token :=
  tokenizeLoop input.length ⟨input, 0, 1, 1⟩

/-- Line and column the cursor shows after consuming the first `n` input
characters (starting from line 1, column 1). -/
def lineColAt (input : List Char) (n : Nat) : Nat × Nat :=
  (input.take n).foldl advChar (1, 1)

/-- The scanString interior loop splits its input: consumed ++ left = input. -/
theorem scanStringAux_split (q : Char) :
    ∀ n cs, cs.length ≤ n →
      (scanStringAux q cs).1 ++ (scanStringAux q cs).2.1 = cs := by
  intro n
  induction n with
  | zero =>
    intro cs h
    have : cs = [] := List.length_eq_zero.mp (Nat.le_zero.mp h)
    subst this
    simp [scanStringAux]
  | succ n ih =>
    intro cs h
    cases cs with
    | nil => simp [scanStringAux]
    | cons c rest =>
      cases rest with
      | nil =>
        by_cases hb : c = '\\'
        · simp [scanStringAux, hb]
        · by_cases hq : c = q
          · subst hq
            simp [scanStringAux, hb]
          · simp [scanStringAux, hb, hq]
      | cons c2 rest2 =>
        by_cases hb : c = '\\'
        · have h2 : rest2.length ≤ n := by
            simp only [List.length_cons] at h
            omega
          have := ih rest2 h2
          simp [scanStringAux, hb, this]
        · by_cases hq : c = q
          · subst hq
            simp [scanStringAux, hb]
          · have h2 : (c2 :: rest2).length ≤ n := by
              simp only [List.length_cons] at h
              simp only [List.length_cons]
              omega
            have := ih (c2 :: rest2) h2
            simp [scanStringAux, hb, hq, this]

/-- scanStringAux splits its input: consumed ++ left = input. -/
theorem scanStringAux_parts (q : Char) (cs : List Char) :
    (scanStringAux q cs).1 ++ (scanStringAux q cs).2.1 = cs :=
  scanStringAux_split q cs.length cs le_rfl

/-- A list whose head? is known starts with that head. -/
theorem head_some_eq (l : List Char) (d : Char) (h : l.head? = some d) : d :: l.tail = l := by
  cases l with
  | nil => simp at h
  | cons a t =>
    simp only [List.head?_cons, Option.some.injEq] at h
    simp [h]

/-- A list whose first two elements are known dots starts with them. -/
theorem take2_eq (l : List Char) (h : l.take 2 = ['.', '.']) :
    '.' :: '.' :: l.drop 2 = l := by
  cases l with
  | nil => simp at h
  | cons a t =>
    cases t with
    | nil => simp at h
    | cons b u =>
      simp only [List.take, List.cons.injEq] at h
      obtain ⟨rfl, rfl, -⟩ := h
      simp

/-- One scanToken dispatch on a nonempty input consumes a nonempty front of
it, leaves the rest, and never emits the end-of-input kind. -/
theorem scanCore_spec (c : Char) (rest : List Char) :
    (scanCore (c :: rest)).consumed ++ (scanCore (c :: rest)).left = c :: rest ∧
    (scanCore (c :: rest)).consumed ≠ [] ∧
    (scanCore (c :: rest)).typ ≠ .TokenEOF := by
  simp only [scanCore]
  by_cases h1 : goIsSpace c = true
  · rw [if_pos h1]
    exact ⟨List.takeWhile_append_dropWhile _ _, by simp [List.takeWhile_cons, h1], by simp⟩
  · rw [if_neg h1]
    by_cases h2 : c = '{'
    · rw [if_pos h2]
      exact ⟨rfl, by simp, by simp⟩
    · rw [if_neg h2]
      by_cases h3 : c = '}'
      · rw [if_pos h3]
        exact ⟨rfl, by simp, by simp⟩
      · rw [if_neg h3]
        by_cases h4 : c = '<'
        · rw [if_pos h4]
          by_cases h5 : rest.head? = some '/'
          · rw [if_pos h5]
            exact ⟨by simp [head_some_eq rest '/' h5, h4], by simp, by simp⟩
          · rw [if_neg h5]
            exact ⟨by simp [h4], by simp, by simp⟩
        · rw [if_neg h4]
          by_cases h6 : c = '/' ∧ rest.head? = some '>'
          · rw [if_pos h6]
            exact ⟨by simp [head_some_eq rest '>' h6.2, h6.1], by simp, by simp⟩
          · rw [if_neg h6]
            by_cases h7 : c = '>'
            · rw [if_pos h7]
              exact ⟨rfl, by simp, by simp⟩
            · rw [if_neg h7]
              by_cases h8 : c = '='
              · rw [if_pos h8]
                by_cases h9 : rest.head? = some '>'
                · rw [if_pos h9]
                  exact ⟨by simp [head_some_eq rest '>' h9, h8], by simp, by simp⟩
                · rw [if_neg h9]
                  exact ⟨by simp [h8], by simp, by simp⟩
              · rw [if_neg h8]
                by_cases h10 : c = '.'
                · rw [if_pos h10]
                  by_cases h11 : rest.take 2 = ['.', '.']
                  · rw [if_pos h11]
                    exact ⟨by simp [take2_eq rest h11, h10], by simp, by simp⟩
                  · rw [if_neg h11]
                    exact ⟨by simp [h10], by simp, by simp⟩
                · rw [if_neg h10]
                  by_cases h12 : c = '('
                  · rw [if_pos h12]
                    exact ⟨rfl, by simp, by simp⟩
                  · rw [if_neg h12]
                    by_cases h13 : c = ')'
                    · rw [if_pos h13]
                      exact ⟨rfl, by simp, by simp⟩
                    · rw [if_neg h13]
                      by_cases h14 : c = ','
                      · rw [if_pos h14]
                        exact ⟨rfl, by simp, by simp⟩
                      · rw [if_neg h14]
                        by_cases h15 : c = ':'
                        · rw [if_pos h15]
                          exact ⟨rfl, by simp, by simp⟩
                        · rw [if_neg h15]
                          by_cases h16 : c = '?'
                          · rw [if_pos h16]
                            exact ⟨rfl, by simp, by simp⟩
                          · rw [if_neg h16]
                            by_cases h17 : c = '&' ∧ rest.head? = some '&'
                            · rw [if_pos h17]
                              exact ⟨by simp [head_some_eq rest '&' h17.2, h17.1], by simp, by simp⟩
                            · rw [if_neg h17]
                              by_cases h18 : c = '|' ∧ rest.head? = some '|'
                              · rw [if_pos h18]
                                exact ⟨by simp [head_some_eq rest '|' h18.2, h18.1], by simp, by simp⟩
                              · rw [if_neg h18]
                                by_cases h19 : c = '"' ∨ c = '\x27' ∨ c = '\x60'
                                · rw [if_pos h19]
                                  refine ⟨by simp [scanStringAux_parts c rest], by simp, ?_⟩
                                  cases hb : (scanStringAux c rest).2.2.2 <;> simp [hb]
                                · rw [if_neg h19]
                                  by_cases h20 : goIsDigit c = true
                                  · rw [if_pos h20]
                                    exact ⟨List.takeWhile_append_dropWhile _ _, by simp [List.takeWhile_cons, h20], by simp⟩
                                  · rw [if_neg h20]
                                    by_cases h21 : isIdentStart c = true
                                    · rw [if_pos h21]
                                      refine ⟨List.takeWhile_append_dropWhile _ _, by simp [List.takeWhile_cons, isIdentChar, h21], ?_⟩
                                      split_ifs <;> simp
                                    · rw [if_neg h21]
                                      exact ⟨rfl, by simp, by simp⟩

/-- Unfolding lineColAt across a block of consumed characters. -/
theorem lineColAt_append (input : List Char) (a k : Nat) :
    lineColAt input (a + k) = ((input.drop a).take k).foldl advChar (lineColAt input a) := by
  simp [lineColAt, List.take_add, List.foldl_append]

/-- Dropping the length of the first summand of an append. -/
theorem drop_len_of_append {l l1 l2 : List Char} (h : l1 ++ l2 = l) :
    l.drop l1.length = l2 := by
  rw [← h, List.drop_left]

/-- Taking the length of the first summand of an append. -/
theorem take_len_of_append {l l1 l2 : List Char} (h : l1 ++ l2 = l) :
    l.take l1.length = l1 := by
  rw [← h, List.take_left]

/-- Combined invariant of the Tokenize loop: the result is the scanned
tokens followed by the one EOF token; non-EOF tokens carry strictly
increasing end offsets; and every token records the cursor position reached
immediately after its own characters were consumed. -/
theorem tokenizeLoop_spec (input : List Char) :
    ∀ (fuel : Nat) (srest : List Char) (spos sline scol : Nat),
      input.drop spos = srest → spos ≤ input.length →
      srest.length ≤ fuel → (sline, scol) = lineColAt input spos →
      ∃ ts e, tokenizeLoop fuel ⟨srest, spos, sline, scol⟩ = ts ++ [e] ∧
        e = ⟨.TokenEOF, [], (lineColAt input input.length).1,
             (lineColAt input input.length).2, input.length⟩ ∧
        (∀ t ∈ ts, t.typ ≠ .TokenEOF ∧ spos < t.offset ∧ t.offset ≤ input.length ∧
          (t.line, t.column) = lineColAt input t.offset) ∧
        ts.Chain' (fun a b => a.offset < b.offset) := by
  intro fuel
  induction fuel with
  | zero =>
    intro srest spos sline scol h1 h2 h3 h4
    have hre : srest = [] := List.length_eq_zero.mp (Nat.le_zero.mp h3)
    subst hre
    have hpos : spos = input.length := by
      have hlen := congrArg List.length h1
      simp only [List.length_drop, List.length_nil] at hlen
      omega
    subst hpos
    have hl := congrArg Prod.fst h4
    have hc := congrArg Prod.snd h4
    refine ⟨[], _, ?_, rfl, by simp, by simp⟩
    simp only [tokenizeLoop, List.nil_append, mkToken]
    rw [← hl, ← hc]
  | succ fuel ih =>
    intro srest spos sline scol h1 h2 h3 h4
    cases srest with
    | nil =>
      have hpos : spos = input.length := by
        have hlen := congrArg List.length h1
        simp only [List.length_drop, List.length_nil] at hlen
        omega
      subst hpos
      have hl := congrArg Prod.fst h4
      have hc := congrArg Prod.snd h4
      refine ⟨[], _, ?_, rfl, by simp, by simp⟩
      simp only [tokenizeLoop, List.nil_append, mkToken]
      rw [← hl, ← hc]
    | cons c r =>
      obtain ⟨hsp, hne, hnee⟩ := scanCore_spec c r
      have hk1 : 1 ≤ (scanCore (c :: r)).consumed.length := by
        cases hcc : (scanCore (c :: r)).consumed with
        | nil => exact absurd hcc hne
        | cons a t => simp
      have hklen : (scanCore (c :: r)).consumed.length + (scanCore (c :: r)).left.length
          = r.length + 1 := by
        have := congrArg List.length hsp
        simpa using this
      have hlen : input.length = spos + (r.length + 1) := by
        have hl := congrArg List.length h1
        simp only [List.length_drop, List.length_cons] at hl
        omega
      -- invariants for the state after the scanned token
      have i1 : input.drop (spos + (scanCore (c :: r)).consumed.length)
          = (scanCore (c :: r)).left := by
        have hdd : input.drop (spos + (scanCore (c :: r)).consumed.length)
            = (input.drop spos).drop (scanCore (c :: r)).consumed.length := by
          rw [List.drop_drop]
        rw [hdd, h1]
        exact drop_len_of_append hsp
      have i2 : spos + (scanCore (c :: r)).consumed.length ≤ input.length := by
        omega
      have i3 : (scanCore (c :: r)).left.length ≤ fuel := by
        simp only [List.length_cons] at h3
        omega
      have i4 : ((scanCore (c :: r)).consumed.foldl advChar (sline, scol))
          = lineColAt input (spos + (scanCore (c :: r)).consumed.length) := by
        rw [lineColAt_append input spos, h1, take_len_of_append hsp, h4]
      obtain ⟨ts, e, heq, he, hall, hchain⟩ :=
        ih (scanCore (c :: r)).left (spos + (scanCore (c :: r)).consumed.length)
          ((scanCore (c :: r)).consumed.foldl advChar (sline, scol)).1
          ((scanCore (c :: r)).consumed.foldl advChar (sline, scol)).2
          i1 i2 i3 (by rw [i4])
      refine ⟨mkToken (scanCore (c :: r)).typ (scanCore (c :: r)).value
          (lexConsume ⟨c :: r, spos, sline, scol⟩ (scanCore (c :: r)).consumed
            (scanCore (c :: r)).left) :: ts, e, ?_, he, ?_, ?_⟩
      · simp only [tokenizeLoop, scanToken, List.cons_append]
        rw [← heq]
        rfl
      · intro t ht
        rcases List.mem_cons.mp ht with rfl | hmem
        · refine ⟨hnee, by simp [mkToken, lexConsume]; omega, by simp [mkToken, lexConsume]; omega, ?_⟩
          simp only [mkToken, lexConsume]
          rw [← i4]
        · obtain ⟨q1, q2, q3, q4⟩ := hall t hmem
          exact ⟨q1, by omega, q3, q4⟩
      · refine List.chain'_cons'.mpr ⟨?_, hchain⟩
        intro y hy
        obtain ⟨-, q2, -, -⟩ := hall y (List.mem_of_mem_head? hy)
        simpa [mkToken, lexConsume] using q2

/-- C9: for every input, the token sequence returned by Tokenize ends with
exactly one end-of-input token — end-of-input appears nowhere else — and the
byte offsets of consecutive tokens are strictly increasing except for the
terminal end-of-input token. -/
theorem tokenize_terminal_eof_and_increasing_offsets (input : List Char) :
    ∃ ts e, Tokenize input = ts ++ [e] ∧ e.typ = .TokenEOF ∧
      (∀ t ∈ ts, t.typ ≠ .TokenEOF) ∧
      ts.Chain' (fun a b => a.offset < b.offset) := by
  obtain ⟨ts, e, heq, he, hall, hchain⟩ :=
    tokenizeLoop_spec input input.length input 0 1 1 (by simp) (by simp) (by simp)
      (by simp [lineColAt])
  exact ⟨ts, e, heq, by rw [he], fun t ht => (hall t ht).1, hchain⟩

/-- C10: every token emitted by the tokenizer records the scanner position
reached immediately after the token's literal text has been consumed (its
end position), not the position of its first character: the stored line and
column are exactly the line/column the cursor shows after `offset` input
characters. -/
theorem token_positions_are_end_positions (input : List Char) (t : Token)
    (ht : t ∈ Tokenize input) :
    (t.line, t.column) = lineColAt input t.offset := by
  obtain ⟨ts, e, heq, he, hall, hchain⟩ :=
    tokenizeLoop_spec input input.length input 0 1 1 (by simp) (by simp) (by simp)
      (by simp [lineColAt])
  rw [Tokenize] at ht
  rw [heq] at ht
  rcases List.mem_append.mp ht with hmem | hmem
  · exact (hall t hmem).2.2.2
  · have : t = e := by simpa using hmem
    subst this
    rw [he]
  
/-- Witness for C10 at a concrete input: the whitespace token of "\na"
holds the newline, and is recorded with the line number of the line that
follows it (line 2), as the end-position convention dictates. -/
theorem token_positions_are_end_positions_witness :
    (⟨.TokenWhitespace, ['\n'], 2, 1, 1⟩ : Token) ∈ Tokenize (chars "\na") ∧
    ((2 : Nat), (1 : Nat)) = lineColAt (chars "\na") 1 :=
  ⟨by decide, token_positions_are_end_positions (chars "\na")
    ⟨.TokenWhitespace, ['\n'], 2, 1, 1⟩ (by decide)⟩

/-- C2 (code-bug evidence): concatenating the literal text of every token
of the input consisting of a quoted string literal does not reconstruct the
input — scanString records the string token's value without its quotes, so
the two quote characters are lost. -/
theorem tokenize_roundtrip_fails_on_strings :
    ((Tokenize (chars "\"a\"")).map Token.value).flatten = chars "a" ∧
    ((Tokenize (chars "\"a\"")).map Token.value).flatten ≠ chars "\"a\"" := by
  constructor
  · decide
  · decide

/-- ASCII case mapping of Go strings.ToLower (all inputs here are ASCII). -/
def asciiLower (c : Char) : Char :=
  if 'A' ≤ c ∧ c ≤ 'Z' then Char.ofNat (c.toNat + 32) else c

/-- Go strings.ToLower. -/
def goToLower (s : List Char) : List Char := s.map asciiLower

/-- Go strings.TrimSpace (unicode.IsSpace trimmed from both ends). -/
def goTrimSpace (s : List Char) : List Char :=
  ((s.dropWhile goIsSpace).reverse.dropWhile goIsSpace).reverse

/-- Go strings.HasPrefix: does `s` start with `pat`. -/
def goStartsWith : List Char → List Char → Bool
  | _, [] => true
  | [], _ :: _ => false
  | c :: s, p :: ps => c = p && goStartsWith s ps

/-- Go strings.HasSuffix: does `s` end with `pat`. -/
def goEndsWith (s pat : List Char) : Bool :=
  goStartsWith s.reverse pat.reverse

/-- Go strings.Contains: does `pat` occur inside `s`. -/
def goContains : List Char → List Char → Bool
  | [], pat => pat.isEmpty
  | s@(_ :: rest), pat => goStartsWith s pat || goContains rest pat

/-- Regexp word character class `\w` = [A-Za-z0-9_]. -/
def isWordChar (c : Char) : Bool :=
  ('a' ≤ c && c ≤ 'z') || ('A' ≤ c && c ≤ 'Z') || ('0' ≤ c && c ≤ '9') || c = '_'

/-- Regexp whitespace class `\s` = [\t\n\f\r ] (RE2 Perl class). -/
def reSpace (c : Char) : Bool :=
  c = ' ' || c = '\t' || c = '\n' || c = '\x0c' || c = '\r'

/-- ast.go findTernaryColon inner loop: depth rises on `(`, `[`, `\x7b` and on
every `?` (to skip nested ternary separators), falls only on `)`, `]`, `\x7d`
— never on `:`; the first `:` seen at depth zero is returned. -/
def findTernaryColonAux : List Char → Nat → Int → Int
  | [], _, _ => -1
  | ch :: rest, i, depth =>
    if ch = '(' ∨ ch = '[' ∨ ch = '{' then findTernaryColonAux rest (i + 1) (depth + 1)
    else if ch = ')' ∨ ch = ']' ∨ ch = '}' then findTernaryColonAux rest (i + 1) (depth - 1)
    else if ch = ':' then
      if depth = 0 then (i : Int) else findTernaryColonAux rest (i + 1) depth
    else if ch = '?' then findTernaryColonAux rest (i + 1) (depth + 1)
    else findTernaryColonAux rest (i + 1) depth

/-- ast.go findTernaryColon: -1 when no top-level colon is found. -/
def findTernaryColon (s : List Char) : Int := findTernaryColonAux s 0 0

/-- ast.go stripOuterParens scan: index of the `)` closing the very first
character (`(`), or none if the parens never rebalance. -/
def spoAux : List Char → Nat → Int → Option Nat
  | [], _, _ => none
  | c :: rest, i, depth =>
    if c = '(' then spoAux rest (i + 1) (depth + 1)
    else if c = ')' then
      if depth - 1 = 0 then some i else spoAux rest (i + 1) (depth - 1)
    else spoAux rest (i + 1) depth

/-- ast.go stripOuterParens: remove one pair of outer parentheses when they
span the whole (trimmed) string. -/
def stripOuterParens (s0 : List Char) : List Char :=
  let s := goTrimSpace s0
  if goStartsWith s (chars "(") = false then s
  else
    match spoAux s 0 0 with
    | none => s
    | some i =>
      if i < s.length - 1 then s
      else goTrimSpace ((s.drop 1).take (s.length - 2))

/-- Maximal identifier chain `\w+(\.\w+)*` at the head of the input:
the segments and the text left after the chain.  The fuel is an upper bound
on the recursion (the wrappers pass the input length). -/
def chainSegs : Nat → List Char → List (List Char) × List Char
  | 0, s => ([], s)
  | fuel + 1, s =>
    let seg := s.takeWhile isWordChar
    if seg.isEmpty then ([], s)
    else
      let rest := s.drop seg.length
      match rest with
      | '.' :: rest2 =>
        if (rest2.takeWhile isWordChar).isEmpty then ([seg], rest)
        else
          let r := chainSegs fuel rest2
          (seg :: r.1, r.2)
      | _ => ([seg], rest)

/-- Leftmost-anchored match of `^(\w+(?:\.\w+)*)\.map\s*\(`: the regex
matches exactly when the maximal identifier chain has at least two segments,
its last segment is `map` (greedy chain capture backtracks one segment to
let `\.map` consume it), and `\s*\(` follows; the capture is the chain minus
the final `map`, and the returned remainder starts after the `(`. -/
def mapCallHead (s : List Char) : Option (List Char × List Char) :=
  let r := chainSegs s.length s
  if r.1.length ≥ 2 ∧ r.1.getLast? = some (chars "map") then
    match r.2.dropWhile reSpace with
    | '(' :: afterParen =>
      some (List.intercalate (chars ".") (r.1.dropLast), afterParen)
    | _ => none
  else none

/-- ast.go isMapExpression: `^\w+(?:\.\w+)*\.map\s*\(` matches. -/
def isMapExpression (s : List Char) : Bool := (mapCallHead s).isSome

/-- Binder part of the map regex, `\s*\(?\s*(\w+)(?:\s*,\s*(\w+))?\s*\)?\s*=>\s*`,
starting right after the opening parenthesis of the `.map(` call: item
variable, index variable ([] when absent), and the text after the arrow and
its trailing whitespace (the regex match end, i.e. the body start).  Each
optional piece is taken greedily; a failed optional falls back, which for
this pattern is deterministic. -/
def mapBinder (s : List Char) : Option (List Char × List Char × List Char) :=
  let s1 := s.dropWhile reSpace
  let s2 := if s1.head? = some '(' then s1.tail else s1
  let s3 := s2.dropWhile reSpace
  let item := s3.takeWhile isWordChar
  if item.isEmpty then none
  else
    let s4 := s3.drop item.length
    let tryIdx :=
      match s4.dropWhile reSpace with
      | ',' :: t2 =>
        let t3 := t2.dropWhile reSpace
        let idx := t3.takeWhile isWordChar
        if idx.isEmpty then none else some (idx, t3.drop idx.length)
      | _ => none
    let s5p := match tryIdx with
      | some p => p
      | none => ([], s4)
    let s6 := s5p.2.dropWhile reSpace
    let s7 := if s6.head? = some ')' then s6.tail else s6
    match s7.dropWhile reSpace with
    | '=' :: '>' :: s9 => some (item, s5p.1, s9.dropWhile reSpace)
    | _ => none

/-- Head match of ast.go mapRegex: collection, item/index binders, and the
text from the regex match end on (`bodyRaw` before trimming). -/
def mapHeadMatch (raw : List Char) : Option (List Char × List Char × List Char × List Char) :=
  match mapCallHead raw with
  | none => none
  | some (collection, afterParen) =>
    match mapBinder afterParen with
    | none => none
    | some (item, idx, body) => some (collection, item, idx, body)

/-- Cutset test for TrimLeft/TrimRight with " \t\n\r". -/
def isCut1 (c : Char) : Bool := c = ' ' || c = '\t' || c = '\n' || c = '\r'

/-- Cutset test for TrimRight with " \t\n\r)". -/
def isCut2 (c : Char) : Bool := isCut1 c || c = ')'

/-- Scan for the parenthesis closing an already-open one (depth starts at
one), as in the map-body extraction of ast.go analyzeExpression. -/
def parenScan : List Char → Nat → Int → Option Nat
  | [], _, _ => none
  | c :: rest, i, depth =>
    if c = '(' then parenScan rest (i + 1) (depth + 1)
    else if c = ')' then
      if depth - 1 = 0 then some i else parenScan rest (i + 1) (depth - 1)
    else parenScan rest (i + 1) depth

/-- Body extraction of the iteration branch of ast.go analyzeExpression:
strip leading whitespace; if the body is parenthesized take the interior of
the matching pair; then trim trailing whitespace and closing parens. -/
def mapBodyRaw (afterHead : List Char) : List Char :=
  let b1 := afterHead.dropWhile isCut1
  let b2 :=
    if goStartsWith b1 (chars "(") then
      match parenScan b1.tail 0 1 with
      | some i => b1.tail.take i
      | none => b1.tail
    else b1
  (b2.reverse.dropWhile isCut2).reverse

/-- Lazy-group match of ast.go andRegex `^(.+?)\s*&&\s*`: the shortest
nonempty newline-free leading group followed (after whitespace) by `&&`;
returns the group and the text after the `&&` and its trailing whitespace. -/
def andSplitAux : List Char → List Char → Option (List Char × List Char)
  | _, [] => none
  | accRev, c :: rest =>
    if c = '\n' then none
    else
      let s2 := rest.dropWhile reSpace
      if goStartsWith s2 (chars "&&") then
        some ((c :: accRev).reverse, (s2.drop 2).dropWhile reSpace)
      else andSplitAux (c :: accRev) rest

/-- ast.go andRegex applied to the raw text. -/
def andSplit (raw : List Char) : Option (List Char × List Char) :=
  andSplitAux [] raw

/-- ast.go ternaryRegex `^([^?]+)\s*\?\s*`: everything before the first `?`
(which must be nonempty), and the text after the `?` and its trailing
whitespace. -/
def ternarySplitHead (raw : List Char) : Option (List Char × List Char) :=
  let pre := raw.takeWhile (fun c => c ≠ '?')
  if pre.isEmpty then none
  else
    match raw.drop pre.length with
    | '?' :: after => some (pre, after.dropWhile reSpace)
    | _ => none

/-- The three structural recognitions of ast.go analyzeExpression, at the
level of the raw strings each branch hands to its recursive re-parse. -/
inductive SplitShape where
  | mapShape (collection itemVar indexVar bodyRaw : List Char)
  | andShape (condition bodyRaw : List Char)
  | ternaryShape (condition consequentRaw alternateRaw : List Char)
deriving DecidableEq

/-- String-level recognition logic of ast.go analyzeExpression, in source
order: iteration, then boolean-guard, then ternary.  Each constructor
carries exactly the strings the source computes before re-tokenizing and
re-parsing them. -/
def analyzeSplit (raw : List Char) : Option SplitShape :=
  match mapHeadMatch raw with
  | some (collection, item, idx, afterHead) =>
    some (.mapShape collection item idx (mapBodyRaw afterHead))
  | none =>
  match andSplit raw with
  | some (cond, body) =>
    some (.andShape (goTrimSpace cond) (stripOuterParens (goTrimSpace body)))
  | none =>
  match ternarySplitHead raw with
  | some (pre, rest) =>
    let ci := findTernaryColon rest
    if ci > 0 then
      some (.ternaryShape (goTrimSpace pre)
        (stripOuterParens (goTrimSpace (rest.take ci.toNat)))
        (stripOuterParens (goTrimSpace (rest.drop (ci.toNat + 1)))))
    else none
  | none => none

/-- C5: the ternary colon finder locates the branch separator by scanning
for the first `:` at depth zero, where the depth counter rises on `(`, `[`,
`\x7b` and on every `?` and falls only on `)`, `]`, `\x7d` (never on `:`);
consequently for `a ? <X/> : b ? <Y/> : <Z/>` the first top-level colon sits
right after `<X/>` (index 5 of the post-`?` text) and the split places
`<X/>` entirely in the consequent and the remainder `b ? <Y/> : <Z/>` as the
alternate text before recursive re-parse. -/
theorem ternary_colon_split_example :
    findTernaryColon (chars "<X/> : b ? <Y/> : <Z/>") = 5 ∧
    analyzeSplit (chars "a ? <X/> : b ? <Y/> : <Z/>") =
      some (.ternaryShape (chars "a") (chars "<X/>") (chars "b ? <Y/> : <Z/>")) := by
  constructor
  · decide
  · decide

/-- Digit run to number, for the strconv range checks. -/
def digitsToNat (ds : List Char) : Nat :=
  ds.foldl (fun acc c => 10 * acc + (c.toNat - 48)) 0

/-- Success test of Go strconv.Atoi: optional sign, one or more ASCII
digits, and a value that fits a signed 64-bit integer (Atoi rejects
out-of-range input with an error, which inferTypeFromValue treats as
"not an int"). -/
def atoiOk (s : List Char) : Bool :=
  let neg := s.head? = some '-'
  let ds := match s with
    | '+' :: t => t
    | '-' :: t => t
    | t => t
  ¬ ds.isEmpty && ds.all goIsDigit &&
    (if neg then digitsToNat ds ≤ 2 ^ 63 else digitsToNat ds ≤ 2 ^ 63 - 1)

/-- Exponent part of a decimal float literal: optional sign then digits. -/
def expOk (t : List Char) : Bool :=
  let d := match t with
    | '+' :: u => u
    | '-' :: u => u
    | u => u
  ¬ d.isEmpty && d.all goIsDigit

/-- Success test of Go strconv.ParseFloat, modelled for the forms the
extractor can meet: optional sign, then `inf`/`infinity`/`nan`
(case-insensitive) or a decimal mantissa (digits with at most one dot and
at least one digit) with an optional decimal exponent.  The hexadecimal
float syntax and the out-of-range error are not modelled; no initializer
text evaluated in this development exercises them. -/
def parseFloatOk (s0 : List Char) : Bool :=
  let s := match s0 with
    | '+' :: t => t
    | '-' :: t => t
    | t => t
  let low := goToLower s
  if low = chars "inf" ∨ low = chars "infinity" ∨ low = chars "nan" then true
  else
    let mant := s.takeWhile (fun c => goIsDigit c || c = '.')
    let rest := s.drop mant.length
    (mant.count '.' ≤ 1 : Bool) && mant.any goIsDigit &&
      (match rest with
       | [] => true
       | 'e' :: t => expOk t
       | 'E' :: t => expOk t
       | _ => false)

/-- ast.go isSimpleIdent. -/
def isSimpleIdent (s : List Char) : Bool :=
  match s with
  | [] => false
  | c :: rest =>
    isIdentStart c && rest.all (fun r => isIdentStart r || ('0' ≤ r && r ≤ '9'))

/-- ast.go inferTypeFromValue: guess the Go type from a JS initializer,
with the source's precedence order. -/
def inferTypeFromValue (val0 : List Char) : List Char :=
  let val := goTrimSpace val0
  if val = [] ∨ val = chars "\x22\x22" ∨ val = chars "\x27\x27" ∨ val = chars "\x60\x60" then
    chars "string"
  else if (goStartsWith val (chars "\x22") && goEndsWith val (chars "\x22")) ||
      (goStartsWith val (chars "\x27") && goEndsWith val (chars "\x27")) ||
      (goStartsWith val (chars "\x60") && goEndsWith val (chars "\x60")) then
    chars "string"
  else if val = chars "true" ∨ val = chars "false" then
    chars "bool"
  else if atoiOk val then
    chars "int"
  else if parseFloatOk val then
    chars "float64"
  else if goStartsWith val (chars "[") then
    chars "[]interface\x7b\x7d"
  else if goStartsWith val (chars "\x7b") then
    chars "map[string]interface\x7b\x7d"
  else if val = chars "null" ∨ val = chars "undefined" then
    chars "interface\x7b\x7d"
  else
    let lowerVal := goToLower val
    if goEndsWith lowerVal (chars "s") && !goEndsWith lowerVal (chars "ss") &&
        decide (lowerVal.length > 3) && isSimpleIdent val then
      chars "[]interface\x7b\x7d"
    else if goContains lowerVal (chars "items") || goContains lowerVal (chars "list") ||
        goContains lowerVal (chars "data") || goContains lowerVal (chars "array") then
      chars "[]interface\x7b\x7d"
    else
      chars "interface\x7b\x7d"

/-- A reactive state variable, with the fields extractUseStateVars fills in
(the struct declaration itself is outside the provided sources; the field
set is exactly what the construction site and the spec data model give). -/
structure StateVariable where
  Name : List Char
  Setter : List Char
  InitValue : List Char
  InitType : List Char
  LineNumber : Nat
deriving DecidableEq

/-- A derived variable, with the fields extractDerivedVars fills in. -/
structure DerivedVariable where
  Name : List Char
  Expression : List Char
  SourceVar : List Char
  Operation : List Char
  ResultType : List Char
  DependsOn : List (List Char)
  LineNumber : Nat
deriving DecidableEq

/-- Anchored match, at the head of `s`, of the extraction pattern of
ast.go extractUseStateVars:
`const\s+\[(\w+),\s*(\w+)\]\s*=\s*useState(?:<[^>]+>)?\s*\(([^)]*)\)`.
Returns (name, setter, raw initializer, total match length).  The one
backtracking point of the pattern — the optional generic argument — is
tried greedily first, falling back to the plain continuation. -/
def matchUseState (s : List Char) : Option (List Char × List Char × List Char × Nat) :=
  if goStartsWith s (chars "const") then
    let s1 := s.drop 5
    let ws := s1.takeWhile reSpace
    if ws.isEmpty then none
    else
      let s2 := s1.drop ws.length
      match s2 with
      | '[' :: s3 =>
        let g1 := s3.takeWhile isWordChar
        if g1.isEmpty then none
        else
          match s3.drop g1.length with
          | ',' :: s5 =>
            let s6 := s5.dropWhile reSpace
            let g2 := s6.takeWhile isWordChar
            if g2.isEmpty then none
            else
              match s6.drop g2.length with
              | ']' :: s8 =>
                match (s8.dropWhile reSpace) with
                | '=' :: s10 =>
                  let s11 := s10.dropWhile reSpace
                  if goStartsWith s11 (chars "useState") then
                    let s12 := s11.drop 8
                    let cont := fun (t : List Char) =>
                      let t1 := t.dropWhile reSpace
                      match t1 with
                      | '(' :: t2 =>
                        let init := t2.takeWhile (fun c => c ≠ ')')
                        match t2.drop init.length with
                        | ')' :: t4 => some (init, t4)
                        | _ => none
                      | _ => none
                    let attempt :=
                      match s12 with
                      | '<' :: s13 =>
                        let g := s13.takeWhile (fun c => c ≠ '>')
                        if g.isEmpty then none
                        else
                          match s13.drop g.length with
                          | '>' :: s14 =>
                            match cont s14 with
                            | some r => some r
                            | none => cont s12
                          | _ => cont s12
                      | _ => cont s12
                    match attempt with
                    | some (init, fin) => some (g1, g2, init, s.length - fin.length)
                    | none => none
                  else none
                | _ => none
              | _ => none
          | _ => none
      | _ => none
  else none

/-- FindAllStringSubmatchIndex-style scan for the useState pattern:
leftmost matches, continuing after each match end; `line` carries
1 + the number of newlines before the current position, so a match records
exactly the Go `1 + strings.Count(source[:match[0]], "\n")`.  The fuel
bounds the scan steps; the wrapper passes the input length + 1, which
always suffices because every step consumes at least one character. -/
def useStateScan : Nat → List Char → Nat → List StateVariable
  | 0, _, _ => []
  | _ + 1, [], _ => []
  | fuel + 1, s@(c :: rest), line =>
    match matchUseState s with
    | some (name, setter, init, len) =>
      ⟨name, setter, goTrimSpace init, inferTypeFromValue (goTrimSpace init), line⟩ ::
        useStateScan fuel (s.drop len) (line + (s.take len).count '\n')
    | none => useStateScan fuel rest (line + if c = '\n' then 1 else 0)

/-- ast.go extractUseStateVars. -/
def extractUseStateVars (source : List Char) : List StateVariable :=
  useStateScan (source.length + 1) source 1

/-- C3 counterexample: an input that contains the exact declaration text
`const [count, setCount] = useState(0)` (beginning on line 1) for which
extraction yields no record named "count" at all: an earlier unclosed
`useState(` call starts a leftmost match whose `[^)]*` initializer group
swallows the whole declaration. -/
theorem useState_extraction_counterexample :
    extractUseStateVars
        (chars "const [a, b] = useState(const [count, setCount] = useState(0)") =
      [⟨chars "a", chars "b", chars "const [count, setCount] = useState(0",
        chars "interface\x7b\x7d", 1⟩] := by
  decide

/-- The declaration pattern matches the declaration text itself, consuming
all 37 characters. -/
theorem matchUseState_decl :
    matchUseState
        ['c', 'o', 'n', 's', 't', ' ', '[', 'c', 'o', 'u', 'n', 't', ',', ' ', 's', 'e', 't', 'C', 'o', 'u', 'n', 't', ']', ' ', '=', ' ', 'u', 's', 'e', 'S', 't', 'a', 't', 'e', '(', '0', ')'] =
      some (['c', 'o', 'u', 'n', 't'], ['s', 'e', 't', 'C', 'o', 'u', 'n', 't'], ['0'], 37) := by
  decide

/-- No match can start at a newline (the pattern starts with `const`). -/
theorem matchUseState_newline (xs : List Char) : matchUseState ('\n' :: xs) = none := by
  rfl

/-- Scanning any number of newlines followed by the declaration finds
exactly the one record, at the carried line count plus the newlines. -/
theorem useStateScan_newlines (n : Nat) : ∀ line,
    useStateScan (n + 38) (List.replicate n '\n' ++ chars "const [count, setCount] = useState(0)")
        line =
      [⟨chars "count", chars "setCount", chars "0", chars "int", line + n⟩] := by
  induction n with
  | zero =>
    intro line
    simp only [List.replicate, List.nil_append]
    rw [show (0 + 38) = 38 from rfl]
    simp [useStateScan, matchUseState_decl]
    exact ⟨by decide, by decide⟩
  | succ n ih =>
    intro line
    simp only [List.replicate, List.cons_append]
    rw [show (n + 1 + 38) = (n + 38) + 1 from rfl]
    simp only [useStateScan, matchUseState_newline, if_true]
    rw [ih (line + 1)]
    have h1 : line + 1 + n = line + (n + 1) := by omega
    rw [h1]

/-- C3 (amended): for every number of newline lines preceding it, an input
that is exactly that prefix followed by `const [count, setCount] =
useState(0)` yields the single StateVariable with name "count", setter
"setCount", initializer "0", inferred kind int, and declaration line n + 1,
the line computed by counting newlines before the match start. -/
theorem useState_extraction_on_line (n : Nat) :
    extractUseStateVars
        (List.replicate n '\n' ++ chars "const [count, setCount] = useState(0)") =
      [⟨chars "count", chars "setCount", chars "0", chars "int", n + 1⟩] := by
  have hlen : (List.replicate n '\n' ++ chars "const [count, setCount] = useState(0)").length + 1
      = n + 38 := by
    simp [List.length_append, List.length_replicate]
    rfl
  rw [extractUseStateVars, hlen, useStateScan_newlines n 1]
  simp [Nat.add_comm 1 n]

/-- Key set of the Go `stateNames` map built by extractDerivedVars: the
distinct state-variable names, in first-seen order.  (The Go map iterates
its keys in unspecified order; every property proved about the dependency
list below is insensitive to the key order.) -/
def stateNameKeys (stateVars : List StateVariable) : List (List Char) :=
  stateVars.foldl (fun ks sv => if sv.Name ∈ ks then ks else ks ++ [sv.Name]) []

/-- Anchored match, at the head of `s`, of one derived-variable pattern of
ast.go extractDerivedVars: `const\s+(\w+)\s*=\s*(\w+)\.OP\s*\(`.
Returns (name, source identifier, offset just past the source identifier —
Go match[5], the start of findMatchingParen — and the total match length). -/
def matchDerivedHead (op : List Char) (s : List Char) :
    Option (List Char × List Char × Nat × Nat) :=
  if goStartsWith s (chars "const") then
    let s1 := s.drop 5
    let ws := s1.takeWhile reSpace
    if ws.isEmpty then none
    else
      let s2 := s1.drop ws.length
      let g1 := s2.takeWhile isWordChar
      if g1.isEmpty then none
      else
        match (s2.drop g1.length).dropWhile reSpace with
        | '=' :: s5 =>
          let s6 := s5.dropWhile reSpace
          let g2 := s6.takeWhile isWordChar
          if g2.isEmpty then none
          else
            let s7 := s6.drop g2.length
            let g2End := s.length - s7.length
            match s7 with
            | '.' :: s8 =>
              if goStartsWith s8 op then
                match (s8.drop op.length).dropWhile reSpace with
                | '(' :: s10 => some (g1, g2, g2End, s.length - s10.length)
                | _ => none
              else none
            | _ => none
        | _ => none
  else none

/-- Dependency list computed for one derived-variable match: the state
names found as substrings of the recovered expression text, plus the source
collection identifier again whenever it is itself a known state name
(ast.go extractDerivedVars lines 1427-1438). -/
def derivedDeps (keys : List (List Char)) (fullExpr : List Char) (srcName : List Char) :
    List (List Char) :=
  keys.filter (fun nm => goContains fullExpr nm) ++
    (if srcName ∈ keys then [srcName] else [])

/-- Scan of one derived-variable pattern over the source, FindAll-style:
leftmost matches, continuing after each match end.  `line` carries
1 + the newlines before the current position; `preRev` the processed prefix
in reverse, from which the destructuring skip reads its 20-character
lookback window (`strings.Contains(source[max(0,start-20):start], "[")` is
a membership test, unaffected by the window's orientation).  The skip still
advances past the match, as Go's `continue` does.  The full expression runs
from the match start to the paren-scan result seeded at depth one from
match[5] (Go findMatchingParen), or is empty when the scan never closes. -/
def derivedScan (op resultType : List Char) (keys : List (List Char)) :
    Nat → List Char → Nat → List Char → List DerivedVariable
  | 0, _, _, _ => []
  | _ + 1, [], _, _ => []
  | fuel + 1, s@(c :: rest), line, preRev =>
    match matchDerivedHead op s with
    | some (name, srcName, g2End, len) =>
      let skipped := ((preRev.take 20).contains '[' : Bool)
      let fullExpr :=
        match parenScan (s.drop g2End) 0 1 with
        | some i => s.take (g2End + i + 1)
        | none => []
      let tail := derivedScan op resultType keys fuel (s.drop len)
        (line + (s.take len).count '\n') ((s.take len).reverse ++ preRev)
      if skipped then tail
      else
        ⟨name, fullExpr, srcName, op, resultType,
          derivedDeps keys fullExpr srcName, line⟩ :: tail
    | none =>
      derivedScan op resultType keys fuel rest
        (line + if c = '\n' then 1 else 0) (c :: preRev)

/-- The eight supported operations with their coarse result kinds, in the
order of the pattern table of ast.go extractDerivedVars. -/
def derivedOps : List (List Char × List Char) :=
  [(chars "filter", chars "[]interface\x7b\x7d"),
   (chars "map", chars "[]interface\x7b\x7d"),
   (chars "find", chars "interface\x7b\x7d"),
   (chars "some", chars "bool"),
   (chars "every", chars "bool"),
   (chars "reduce", chars "interface\x7b\x7d"),
   (chars "sort", chars "[]interface\x7b\x7d"),
   (chars "slice", chars "[]interface\x7b\x7d")]

/-- ast.go extractDerivedVars: run every pattern over the whole source,
appending each pattern's records in pattern order. -/
def extractDerivedVars (source : List Char) (stateVars : List StateVariable) :
    List DerivedVariable :=
  (derivedOps.map (fun p =>
    derivedScan p.1 p.2 (stateNameKeys stateVars) (source.length + 1) source 1 [])).flatten

/-- C4 counterexample: with state variable `items` and the derived
declaration `const visible = items.filter(x)`, the dependency collection
contains "items" twice — once from the substring scan over the recovered
expression text and once from the explicit source-collection append — so it
is not a set. -/
theorem derived_deps_duplicate_counterexample :
    extractDerivedVars
        (chars "const [items, setItems] = useState(0)\nconst extra = 1\nconst visible = items.filter(x)\n)")
        (extractUseStateVars
          (chars "const [items, setItems] = useState(0)\nconst extra = 1\nconst visible = items.filter(x)\n)")) =
      [⟨chars "visible", chars "const visible = items.filter(x)\n)", chars "items",
        chars "filter", chars "[]interface\x7b\x7d",
        [chars "items", chars "items"], 3⟩] := by
  decide

/-- The state-name key set never repeats a name. -/
theorem stateNameKeys_nodup (svs : List StateVariable) : (stateNameKeys svs).Nodup := by
  suffices h : ∀ acc : List (List Char), acc.Nodup →
      (svs.foldl (fun ks sv => if sv.Name ∈ ks then ks else ks ++ [sv.Name]) acc).Nodup by
    exact h [] List.nodup_nil
  induction svs with
  | nil => intro acc hacc; simpa using hacc
  | cons sv svs ih =>
    intro acc hacc
    simp only [List.foldl_cons]
    by_cases hmem : sv.Name ∈ acc
    · rw [if_pos hmem]
      exact ih acc hacc
    · rw [if_neg hmem]
      refine ih _ ?_
      simp [List.nodup_append, hacc, hmem]

/-- Every state-name key is the name of one of the state variables. -/
theorem stateNameKeys_sub (svs : List StateVariable) :
    ∀ k ∈ stateNameKeys svs, k ∈ svs.map StateVariable.Name := by
  suffices h : ∀ acc : List (List Char),
      ∀ k ∈ svs.foldl (fun ks sv => if sv.Name ∈ ks then ks else ks ++ [sv.Name]) acc,
        k ∈ acc ∨ k ∈ svs.map StateVariable.Name by
    intro k hk
    rcases h [] k hk with hc | hc
    · simp at hc
    · exact hc
  induction svs with
  | nil => intro acc k hk; exact Or.inl (by simpa using hk)
  | cons sv svs ih =>
    intro acc k hk
    simp only [List.foldl_cons] at hk
    rcases ih _ k hk with hc | hc
    · by_cases hmem : sv.Name ∈ acc
      · rw [if_pos hmem] at hc
        exact Or.inl hc
      · rw [if_neg hmem] at hc
        rcases List.mem_append.mp hc with h1 | h1
        · exact Or.inl h1
        · simp only [List.mem_singleton] at h1
          exact Or.inr (by simp [h1])
    · exact Or.inr (by simp [hc])

/-- A duplicate-free list counts every element at most once. -/
theorem count_le_one_of_nodup {α : Type} [BEq α] [LawfulBEq α] {l : List α}
    (h : l.Nodup) (a : α) : l.count a ≤ 1 := by
  induction l with
  | nil => simp
  | cons x xs ih =>
    simp only [List.nodup_cons] at h
    rw [List.count_cons]
    by_cases hax : a = x
    · subst hax
      have h0 : xs.count a = 0 := List.count_eq_zero.mpr h.1
      simp [h0]
    · have h1 : (a == x) = false := beq_false_of_ne hax
      have h2 : (x == a) = false := beq_false_of_ne (Ne.symm hax)
      simp only [h1, h2]
      have h3 := ih h.2
      simp only [if_neg (by decide : ¬ (false = true))]
      omega

/-- Shape of one dependency list: names other than the source identifier
appear at most once, the source identifier at most twice, and everything is
a key. -/
theorem derivedDeps_spec (keys : List (List Char)) (fe src : List Char)
    (hnd : keys.Nodup) :
    (∀ nm ∈ derivedDeps keys fe src, nm ∈ keys) ∧
    (∀ nm, nm ≠ src → (derivedDeps keys fe src).count nm ≤ 1) ∧
    (derivedDeps keys fe src).count src ≤ 2 := by
  have hfil : (keys.filter (fun nm => goContains fe nm)).Nodup := List.Nodup.filter _ hnd
  have hcount1 : ∀ nm, (keys.filter (fun nm => goContains fe nm)).count nm ≤ 1 :=
    fun nm => count_le_one_of_nodup hfil nm
  refine ⟨?_, ?_, ?_⟩
  · intro nm hnm
    rcases List.mem_append.mp hnm with h1 | h1
    · exact List.mem_of_mem_filter h1
    · by_cases hs : src ∈ keys
      · rw [if_pos hs] at h1
        simp only [List.mem_singleton] at h1
        exact h1 ▸ hs
      · rw [if_neg hs] at h1
        simp at h1
  · intro nm hne
    rw [derivedDeps, List.count_append]
    have h2 : List.count nm (if src ∈ keys then [src] else []) = 0 := by
      split_ifs
      · simp [List.count_singleton', hne]
      · simp
    have := hcount1 nm
    omega
  · rw [derivedDeps, List.count_append]
    have h2 : List.count src (if src ∈ keys then [src] else []) ≤ 1 := by
      split_ifs <;> simp
    have := hcount1 src
    omega

/-- Every record the per-pattern scan emits carries a dependency list of
the derivedDeps shape for its own source identifier. -/
theorem derivedScan_shape (op rt : List Char) (keys : List (List Char)) :
    ∀ (fuel : Nat) (s : List Char) (line : Nat) (preRev : List Char)
      (dv : DerivedVariable), dv ∈ derivedScan op rt keys fuel s line preRev →
      ∃ fe, dv.DependsOn = derivedDeps keys fe dv.SourceVar := by
  intro fuel
  induction fuel with
  | zero => intro s line preRev dv h; simp [derivedScan] at h
  | succ fuel ih =>
    intro s line preRev dv h
    cases s with
    | nil => simp [derivedScan] at h
    | cons c rest =>
      rw [derivedScan] at h
      cases hm : matchDerivedHead op (c :: rest) with
      | none =>
        rw [hm] at h
        exact ih _ _ _ dv h
      | some r =>
        rw [hm] at h
        obtain ⟨name, srcName, g2End, len⟩ := r
        simp only at h
        split_ifs at h with hskip
        · exact ih _ _ _ dv h
        · rcases List.mem_cons.mp h with rfl | hmem
          · exact ⟨_, rfl⟩
          · exact ih _ _ _ dv hmem

/-- C4 (amended): for every source text and state-variable list, every
derived variable's dependency collection draws only on extracted
state-variable names; a name other than the source collection identifier
occurs at most once, and the source collection identifier occurs at most
twice (once from the substring scan and once from the explicit append). -/
theorem derived_deps_bounds (source : List Char) (stateVars : List StateVariable)
    (dv : DerivedVariable) (hdv : dv ∈ extractDerivedVars source stateVars) :
    (∀ nm ∈ dv.DependsOn, nm ∈ stateVars.map StateVariable.Name) ∧
    (∀ nm, nm ≠ dv.SourceVar → dv.DependsOn.count nm ≤ 1) ∧
    dv.DependsOn.count dv.SourceVar ≤ 2 := by
  rw [extractDerivedVars] at hdv
  obtain ⟨l, hl, hdl⟩ := List.mem_flatten.mp hdv
  obtain ⟨p, hp, rfl⟩ := List.mem_map.mp hl
  obtain ⟨fe, hshape⟩ := derivedScan_shape p.1 p.2 (stateNameKeys stateVars) _ _ _ _ dv hdl
  obtain ⟨q1, q2, q3⟩ :=
    derivedDeps_spec (stateNameKeys stateVars) fe dv.SourceVar (stateNameKeys_nodup stateVars)
  rw [hshape]
  exact ⟨fun nm hnm => stateNameKeys_sub stateVars nm (q1 nm hnm), q2, q3⟩

/-- Witness for C4 at the counterexample input: the single extracted record
satisfies the amended bounds, with the source identifier "items" occurring
exactly twice. -/
theorem derived_deps_bounds_witness :
    (∀ nm ∈ ([chars "items", chars "items"] : List (List Char)),
        nm ∈ [⟨chars "items", chars "setItems", chars "0", chars "int", 1⟩].map
          StateVariable.Name) ∧
    (∀ nm, nm ≠ chars "items" →
        ([chars "items", chars "items"] : List (List Char)).count nm ≤ 1) ∧
    ([chars "items", chars "items"] : List (List Char)).count (chars "items") ≤ 2 := by
  have h := derived_deps_bounds
    (chars "const [items, setItems] = useState(0)\nconst extra = 1\nconst visible = items.filter(x)\n)")
    (extractUseStateVars
      (chars "const [items, setItems] = useState(0)\nconst extra = 1\nconst visible = items.filter(x)\n)"))
    ⟨chars "visible", chars "const visible = items.filter(x)\n)", chars "items",
      chars "filter", chars "[]interface\x7b\x7d",
      [chars "items", chars "items"], 3⟩
    (by rw [derived_deps_duplicate_counterexample]; exact List.mem_singleton.mpr rfl)
  have hsv : extractUseStateVars
      (chars "const [items, setItems] = useState(0)\nconst extra = 1\nconst visible = items.filter(x)\n)") =
      [⟨chars "items", chars "setItems", chars "0", chars "int", 1⟩] := by decide
  rw [hsv] at h
  exact h

/-- Propagating `none` (out of fuel) through a sequenced parse step. -/
theorem obind_none {α : Type} {β : Type} {x : Option α} (f : α → Option β)
    (h : x = none) : x.bind f = none := by
  subst h
  rfl

/-- ast.go Prop — a component parameter (renamed: `Prop` is a Lean sort). -/
structure CompProp where
  Name : List Char
  DefaultValue : List Char
  JSType : List Char
deriving DecidableEq

/-- ast.go Hook (the Go field `Type` is spelled `typ`). -/
structure Hook where
  typ : List Char
  Name : List Char
  InitValue : List Char
  Deps : List (List Char)
  Body : List Char
  LineNumber : Nat
deriving DecidableEq

/-- ast.go EventHandler. -/
structure EventHandler where
  EventType : List Char
  HandlerBody : List Char
  IsInline : Bool
  SetterCalls : List (List Char)
  StateVars : List (List Char)
  LineNumber : Nat
deriving DecidableEq

/-- ast.go Expression.  The `Parsed` field is omitted: no statement in the
sources ever assigns it, so it is always nil. -/
structure Expression where
  Raw : List Char
  LineNumber : Nat
deriving DecidableEq

/-- ast.go Attribute.  Absent expression/event-handler values are `none`
(the Go zero values). -/
structure Attribute where
  Name : List Char
  Value : List Char
  Expr : Option Expression
  IsSpread : Bool
  SpreadExpr : List Char
  Handler : Option EventHandler
deriving DecidableEq

/-- ast.go Node as a closed tree: the variants the structural parser can
produce (Element, Text, Expression, Fragment, MapExpr, Conditional,
Ternary).  Go nil Node is `Option Node` = none at every use site. -/
inductive Node where
  | element (Tag : List Char) (Attributes : List Attribute) (Children : List Node)
      (SelfClose : Bool) (LineNumber : Nat)
  | text (Content : List Char) (LineNumber : Nat)
  | expr (e : Expression)
  | fragment (Children : List Node) (LineNumber : Nat)
  | mapExpr (Collection ItemVar IndexVar : List Char) (Body : Option Node) (LineNumber : Nat)
  | conditional (Condition : List Char) (Consequent : Option Node) (LineNumber : Nat)
  | ternary (Condition : List Char) (Consequent Alternate : Option Node) (LineNumber : Nat)

/-- ast.go Import (named ImportDecl here); the Go `Named map[string]string`
becomes an association list with overwrite-on-insert, in insertion order. -/
structure ImportDecl where
  Default : List Char
  Named : List (List Char × List Char)
  Namespc : List Char
  Source : List Char
  LineNumber : Nat

/-- ast.go Component, including the StateVars/DerivedVars lists the
with-source parser attaches (their struct fields are constructed in
ast.go Parse). -/
structure Component where
  Name : List Char
  Props : List CompProp
  Body : Option Node
  Hooks : List Hook
  StateVars : List StateVariable
  DerivedVars : List DerivedVariable
  LineNumber : Nat

/-- ast.go File. -/
structure File where
  Imports : List ImportDecl
  Components : List Component
  Exports : List (List Char)

/-- ast.go Warning. -/
structure Warning where
  Line : Nat
  Column : Nat
  Message : List Char
deriving DecidableEq

/-- ast.go Suggestion. -/
structure Suggestion where
  Line : Nat
  ReactCode : List Char
  MintyHint : List Char
  PatternType : List Char
deriving DecidableEq

/-- ast.go ParseResult. -/
structure ParseResult where
  file : File
  Warnings : List Warning
  Suggestions : List Suggestion

/-- Parser state: token list, original source, cursor, and the diagnostics
accumulators (parser.go Parser struct). -/
structure PState where
  tokens : List Token
  source : List Char
  pos : Nat
  warnings : List Warning
  suggestions : List Suggestion

/-- Parser.current: the token at the cursor, or a zero EOF token beyond the
end. -/
def pcurrent (p : PState) : Token := p.tokens.getD p.pos ⟨.TokenEOF, [], 0, 0, 0⟩

/-- Parser.isAtEnd. -/
def pIsAtEnd (p : PState) : Bool :=
  decide (p.pos ≥ p.tokens.length) || (pcurrent p).typ = .TokenEOF

/-- Parser.advance: return the current token; move the cursor unless at the
end. -/
def padvance (p : PState) : Token × PState :=
  (pcurrent p, if pIsAtEnd p then p else { p with pos := p.pos + 1 })

/-- Parser.check. -/
def pcheck (p : PState) (ty : TokenType) : Bool := (pcurrent p).typ = ty

/-- Parser.checkIdent. -/
def pcheckIdent (p : PState) (v : List Char) : Bool :=
  (pcurrent p).typ = .TokenIdent && (pcurrent p).value = v

/-- Parser.match. -/
def pmatch (p : PState) (ty : TokenType) : Bool × PState :=
  if pcheck p ty then (true, (padvance p).2) else (false, p)

/-- Parser.matchIdent. -/
def pmatchIdent (p : PState) (v : List Char) : Bool × PState :=
  if pcheckIdent p v then (true, (padvance p).2) else (false, p)

/-- Parser.addWarning (positioned at the current token). -/
def paddWarning (p : PState) (msg : List Char) : PState :=
  { p with warnings :=
      p.warnings ++ [⟨(pcurrent p).line, (pcurrent p).column, msg⟩] }

/-- Parser.addSuggestion. -/
def paddSuggestion (p : PState) (line : Nat) (rc mh pt : List Char) : PState :=
  { p with suggestions := p.suggestions ++ [⟨line, rc, mh, pt⟩] }

/-- Parser.skipWhitespace loop body; the gas is the remaining token count,
which bounds the loop because every iteration advances the cursor. -/
def skipWSAux : Nat → PState → PState
  | 0, p => p
  | g + 1, p =>
    if pcheck p .TokenWhitespace then skipWSAux g (padvance p).2 else p

/-- Parser.skipWhitespace. -/
def skipWhitespace (p : PState) : PState := skipWSAux (p.tokens.length - p.pos) p

/-- First loop of Parser.skipNonSignificantWhitespace: skip whitespace
tokens that hold no newline or trim to nothing. -/
def skipNonSigAux : Nat → PState → PState
  | 0, p => p
  | g + 1, p =>
    if pcheck p .TokenWhitespace then
      let ws := (pcurrent p).value
      if ¬ goContains ws (chars "\n") ∨ goTrimSpace ws = [] then
        skipNonSigAux g (padvance p).2
      else p
    else p

/-- Parser.skipNonSignificantWhitespace. -/
def skipNonSignificantWhitespace (p : PState) : PState :=
  skipWhitespace (skipNonSigAux (p.tokens.length - p.pos) p)

/-- Parser.skipToNextStatement: skip to the next top-level keyword,
tracking JSX-brace depth; stops before a close brace that would drop the
depth below zero. -/
def skipToNextAux : Nat → PState → Int → PState
  | 0, p, _ => p
  | g + 1, p, depth =>
    if pIsAtEnd p then p
    else
      let tok := pcurrent p
      let depth2 :=
        if tok.typ = .TokenJSXExprOpen then depth + 1
        else if tok.typ = .TokenJSXExprClose then depth - 1
        else depth
      if tok.typ = .TokenJSXExprClose ∧ depth2 < 0 then p
      else if depth2 = 0 ∧ tok.typ = .TokenIdent ∧
          (tok.value = chars "import" ∨ tok.value = chars "export" ∨
           tok.value = chars "function" ∨ tok.value = chars "const" ∨
           tok.value = chars "let" ∨ tok.value = chars "var" ∨
           tok.value = chars "class") then p
      else skipToNextAux g (padvance p).2 depth2

/-- Parser.skipToNextStatement. -/
def skipToNextStatement (p : PState) : PState :=
  skipToNextAux (p.tokens.length - p.pos) p 0

/-- Collection loop of Parser.parseText: concatenate token text until a
tag or expression marker. -/
def parseTextAux : Nat → PState → List Char → List Char × PState
  | 0, p, acc => (acc, p)
  | g + 1, p, acc =>
    if pIsAtEnd p then (acc, p)
    else
      let tok := pcurrent p
      if tok.typ = .TokenTagOpen ∨ tok.typ = .TokenTagEnd ∨ tok.typ = .TokenJSXExprOpen then
        (acc, p)
      else parseTextAux g (padvance p).2 (acc ++ tok.value)

/-- Parser.parseText: nil when the trimmed text is empty. -/
def parseText (p : PState) : Option Node × PState :=
  let startLine := (pcurrent p).line
  let r := parseTextAux (p.tokens.length - p.pos) p []
  let text := goTrimSpace r.1
  if text = [] then (none, r.2) else (some (.text text startLine), r.2)

/-- Collection loop of Parser.parseExpressionContent: token text between
balanced JSX braces, consuming the final close brace without recording it. -/
def exprContentAux : Nat → PState → Int → List Char → List Char × PState
  | 0, p, _, acc => (acc, p)
  | g + 1, p, depth, acc =>
    if pIsAtEnd p then (acc, p)
    else
      let tok := pcurrent p
      if tok.typ = .TokenJSXExprOpen then
        exprContentAux g (padvance p).2 (depth + 1) (acc ++ tok.value)
      else if tok.typ = .TokenJSXExprClose then
        if depth - 1 = 0 then (acc, (padvance p).2)
        else exprContentAux g (padvance p).2 (depth - 1) (acc ++ tok.value)
      else exprContentAux g (padvance p).2 depth (acc ++ tok.value)

/-- Parser.parseExpressionContent. -/
def parseExpressionContent (p : PState) : Expression × PState :=
  let startLine := (pcurrent p).line
  let r := exprContentAux (p.tokens.length - p.pos) p 1 []
  (⟨goTrimSpace r.1, startLine⟩, r.2)

/-- Anchored match of the setter pattern `(set[A-Z]\w*)\s*\(` of
parseEventHandler: the captured setter name and the match length. -/
def matchSetterAt (s : List Char) : Option (List Char × Nat) :=
  if goStartsWith s (chars "set") then
    match s.drop 3 with
    | c :: s4 =>
      if 'A' ≤ c ∧ c ≤ 'Z' then
        let w := s4.takeWhile isWordChar
        match (s4.drop w.length).dropWhile reSpace with
        | '(' :: s6 => some (chars "set" ++ c :: w, s.length - s6.length)
        | _ => none
      else none
    | [] => none
  else none

/-- FindAll scan for the setter pattern (non-overlapping, leftmost). -/
def setterScan : Nat → List Char → List (List Char)
  | 0, _ => []
  | _ + 1, [] => []
  | fuel + 1, s@(_ :: rest) =>
    match matchSetterAt s with
    | some (g, len) => g :: setterScan fuel (s.drop len)
    | none => setterScan fuel rest

/-- Letters and digits — the identifier body class of the handler ident
pattern `\b([a-z][a-zA-Z0-9]*)\b`. -/
def isAlnum (c : Char) : Bool :=
  ('a' ≤ c && c ≤ 'z') || ('A' ≤ c && c ≤ 'Z') || ('0' ≤ c && c ≤ '9')

/-- Anchored match of the handler ident pattern at a position whose
preceding character (if any) is `prev`: both `\b`s must hold — the previous
character is no word character and the character after the run is none
either (`_` blocks the trailing boundary). -/
def matchIdentAt (prev : Option Char) (s : List Char) : Option (List Char × Nat) :=
  match s with
  | c :: _ =>
    if ('a' ≤ c && c ≤ 'z') && (match prev with | some q => ¬ isWordChar q | none => true) then
      let run := s.takeWhile isAlnum
      match (s.drop run.length).head? with
      | some d => if isWordChar d then none else some (run, run.length)
      | none => some (run, run.length)
    else none
  | [] => none

/-- FindAll scan for the handler ident pattern. -/
def identScan : Nat → Option Char → List Char → List (List Char)
  | 0, _, _ => []
  | _ + 1, _, [] => []
  | fuel + 1, prev, s@(c :: rest) =>
    match matchIdentAt prev s with
    | some (g, len) => g :: identScan fuel ((s.take len).getLast?) (s.drop len)
    | none => identScan fuel (some c) rest

/-- The keyword/placeholder exclusion list of parseEventHandler. -/
def handlerKeywords : List (List Char) :=
  [chars "true", chars "false", chars "null", chars "undefined",
   chars "return", chars "if", chars "else", chars "const", chars "let",
   chars "var", chars "function", chars "new", chars "this",
   chars "event", chars "e", chars "target", chars "value"]

/-- ast.go isEventHandler: `on` followed by an uppercase letter. -/
def isEventHandler (name : List Char) : Bool :=
  goStartsWith name (chars "on") &&
    (match name.drop 2 with
     | c :: _ => 'A' ≤ c && c ≤ 'Z'
     | [] => false)

/-- ast.go parseEventHandler. -/
def parseEventHandler (eventType body : List Char) (line : Nat) : EventHandler :=
  let setters := setterScan (body.length + 1) body
  let idents := identScan (body.length + 1) none body
  let sv := idents.foldl (fun acc ident =>
    if ident ∉ acc ∧ ident ∉ handlerKeywords ∧ ¬ goStartsWith ident (chars "set") then
      acc ++ [ident]
    else acc) []
  ⟨eventType, body, goContains body (chars "=>"), setters, sv, line⟩

/-- Spread-expression collection loop of Parser.parseAttribute: token text
up to the brace closing the spread, which is consumed but not recorded. -/
def spreadCollectAux : Nat → PState → Int → List Char → List Char × PState
  | 0, p, _, acc => (acc, p)
  | g + 1, p, depth, acc =>
    if ¬ pIsAtEnd p ∧ depth > 0 then
      let r := padvance p
      let tok := r.1
      if tok.typ = .TokenJSXExprOpen then spreadCollectAux g r.2 (depth + 1) (acc ++ tok.value)
      else if tok.typ = .TokenJSXExprClose then
        if depth - 1 = 0 then (acc, r.2)
        else spreadCollectAux g r.2 (depth - 1) (acc ++ tok.value)
      else spreadCollectAux g r.2 depth (acc ++ tok.value)
    else (acc, p)

/-- Parser.parseAttribute.  The non-spread brace case backs the cursor up
one position and returns nil — the position restore that C1 exercises. -/
def parseAttribute (p0 : PState) : Option Attribute × PState :=
  let p := skipWhitespace p0
  if pcheck p .TokenJSXExprOpen then
    let p1 := (padvance p).2
    let p2 := skipWhitespace p1
    let m := pmatch p2 .TokenSpread
    if m.1 then
      let r := spreadCollectAux (m.2.tokens.length - m.2.pos) m.2 1 []
      (some ⟨[], [], none, true, goTrimSpace r.1, none⟩, r.2)
    else
      (none, { m.2 with pos := m.2.pos - 1 })
  else if ¬ pcheck p .TokenIdent then (none, p)
  else
    let adv := padvance p
    let nameTok := adv.1
    let p4 := skipWhitespace adv.2
    if ¬ pcheck p4 .TokenEquals then (some ⟨nameTok.value, [], none, false, [], none⟩, p4)
    else
      let p6 := skipWhitespace (padvance p4).2
      if pcheck p6 .TokenString then
        let adv2 := padvance p6
        let val0 := adv2.1.value
        let val :=
          if decide (val0.length ≥ 2) ∧
              ((val0.head? = some '"' ∧ val0.getLast? = some '"') ∨
               (val0.head? = some '\x27' ∧ val0.getLast? = some '\x27')) then
            (val0.drop 1).take (val0.length - 2)
          else val0
        (some ⟨nameTok.value, val, none, false, [], none⟩, adv2.2)
      else if pcheck p6 .TokenJSXExprOpen then
        let p7 := (padvance p6).2
        let ec := parseExpressionContent p7
        let eh :=
          if isEventHandler nameTok.value then
            some (parseEventHandler nameTok.value ec.1.Raw ec.1.LineNumber)
          else none
        (some ⟨nameTok.value, [], some ec.1, false, [], eh⟩, ec.2)
      else (some ⟨nameTok.value, [], none, false, [], none⟩, p6)

/-- Propagating `none` through a mapped parse step. -/
theorem omap_none {α : Type} {β : Type} {x : Option α} (f : α → β)
    (h : x = none) : x.map f = none := by
  subst h
  rfl

/-- The attribute loop of Parser.parseElement (ast.go).  The loop makes no
progress when parseAttribute restores the cursor, so it carries fuel;
`none` means the fuel ran out. -/
def elemAttrLoop : Nat → PState → List Attribute → Option (List Attribute × PState)
  | 0, _, _ => none
  | f + 1, p, acc =>
    if ¬ pIsAtEnd p ∧ ¬ pcheck p .TokenTagClose ∧ ¬ pcheck p .TokenTagSelfClose then
      let p1 := skipWhitespace p
      if pcheck p1 .TokenTagClose ∨ pcheck p1 .TokenTagSelfClose then some (acc, p1)
      else
        let r := parseAttribute p1
        match r.1 with
        | some a => elemAttrLoop f r.2 (acc ++ [a])
        | none => elemAttrLoop f r.2 acc
    else some (acc, p)

mutual

/-- Parser.parseNode. -/
def parseNode : Nat → PState → Option (Option Node × PState)
  | 0, _ => none
  | f + 1, p0 =>
    let p := skipWhitespace p0
    if pIsAtEnd p then some (none, p)
    else if pcheck p .TokenJSXExprOpen then parseExpression f p
    else if pcheck p .TokenTagOpen then parseElement f p
    else some (parseText p)

/-- Parser.parseElement. -/
def parseElement : Nat → PState → Option (Option Node × PState)
  | 0, _ => none
  | f + 1, p0 =>
    let m := pmatch p0 .TokenTagOpen
    if ¬ m.1 then some (none, m.2)
    else
      let p1 := skipWhitespace m.2
      if pcheck p1 .TokenTagClose then
        (parseFragment f (padvance p1).2).map (fun r => (some r.1, r.2))
      else if ¬ pcheck p1 .TokenIdent then
        some (none, paddWarning p1 (chars "Expected tag name after <"))
      else
        let adv := padvance p1
        let tagName := adv.1.value
        let line := adv.1.line
        (elemAttrLoop f adv.2 []).bind fun ra =>
          let m2 := pmatch ra.2 .TokenTagSelfClose
          if m2.1 then some (some (.element tagName ra.1 [] true line), m2.2)
          else
            let m3 := pmatch m2.2 .TokenTagClose
            if ¬ m3.1 then
              some (some (.element tagName ra.1 [] false line),
                paddWarning m3.2 (chars "Expected > to close tag"))
            else
              (elemChildLoop f m3.2 []).map fun rc =>
                let m4 := pmatch rc.2 .TokenTagEnd
                let p5 :=
                  if m4.1 then
                    let p5a := skipWhitespace m4.2
                    let p5b :=
                      if pcheck p5a .TokenIdent then
                        let ct := padvance p5a
                        if ct.1.value ≠ tagName then
                          paddWarning ct.2
                            (chars "Mismatched closing tag: expected </" ++ tagName ++
                             chars ">, got </" ++ ct.1.value ++ chars ">")
                        else ct.2
                      else p5a
                    (pmatch (skipWhitespace p5b) .TokenTagClose).2
                  else m4.2
                (some (.element tagName ra.1 rc.1 false line), p5)

/-- The children loop of Parser.parseElement. -/
def elemChildLoop : Nat → PState → List Node → Option (List Node × PState)
  | 0, _, _ => none
  | f + 1, p, acc =>
    if pIsAtEnd p then some (acc, p)
    else
      let p1 := skipNonSignificantWhitespace p
      if pcheck p1 .TokenTagEnd then some (acc, p1)
      else
        (parseNode f p1).bind fun rn =>
          match rn.1 with
          | some c => elemChildLoop f rn.2 (acc ++ [c])
          | none => some (acc, rn.2)

/-- Parser.parseFragment (always yields a Fragment node). -/
def parseFragment : Nat → PState → Option (Node × PState)
  | 0, _ => none
  | f + 1, p =>
    let line := (pcurrent p).line
    (fragChildLoop f p []).map fun r => (.fragment r.1 line, r.2)

/-- The children loop of Parser.parseFragment; on the closing `</>` it also
consumes the tag-end and tag-close tokens. -/
def fragChildLoop : Nat → PState → List Node → Option (List Node × PState)
  | 0, _, _ => none
  | f + 1, p, acc =>
    if pIsAtEnd p then some (acc, p)
    else
      let p1 := skipNonSignificantWhitespace p
      if pcheck p1 .TokenTagEnd then
        some (acc, (pmatch (skipWhitespace (padvance p1).2) .TokenTagClose).2)
      else
        (parseNode f p1).bind fun rn =>
          match rn.1 with
          | some c => fragChildLoop f rn.2 (acc ++ [c])
          | none => some (acc, rn.2)

/-- Parser.parseExpression. -/
def parseExpression : Nat → PState → Option (Option Node × PState)
  | 0, _ => none
  | f + 1, p =>
    let m := pmatch p .TokenJSXExprOpen
    if ¬ m.1 then some (none, m.2)
    else
      let ec := parseExpressionContent m.2
      (analyzeExpression f ec.1).map fun nd =>
        match nd with
        | some n => (some n, ec.2)
        | none => (some (.expr ec.1), ec.2)

/-- Parser.analyzeExpression: recognize iteration / boolean-guard / ternary
shapes via analyzeSplit and re-parse the extracted texts; reads and writes
no parser state. -/
def analyzeExpression : Nat → Expression → Option (Option Node)
  | 0, _ => none
  | f + 1, expr =>
    match analyzeSplit expr.Raw with
    | some (.mapShape coll item idx bodyRaw) =>
      (parseJSX f bodyRaw).map fun body =>
        some (.mapExpr coll item idx body expr.LineNumber)
    | some (.andShape cond bodyRaw) =>
      (parseJSX f bodyRaw).map fun body =>
        some (.conditional cond body expr.LineNumber)
    | some (.ternaryShape cond consRaw altRaw) =>
      (if isMapExpression consRaw then analyzeExpression f ⟨consRaw, expr.LineNumber⟩
       else parseJSX f consRaw).bind fun cons =>
        (if isMapExpression altRaw then analyzeExpression f ⟨altRaw, expr.LineNumber⟩
         else parseJSX f altRaw).map fun alt =>
          some (.ternary cond cons alt expr.LineNumber)
    | none => some none

/-- Parser.ParseJSX over a fresh lexer and parser for the given text, as
the body re-parses of analyzeExpression use it; only the node is kept. -/
def parseJSX : Nat → List Char → Option (Option Node)
  | 0, _ => none
  | f + 1, src =>
    (parseNode f (skipWhitespace ⟨Tokenize src, src, 0, [], []⟩)).map Prod.fst

end

/-- Parser.detectHook: any `use`-prefixed identifier yields a Hook record;
the six known hook names also add a suggestion. -/
def detectHook (p : PState) (name : List Char) : Option Hook × PState :=
  if ¬ goStartsWith name (chars "use") then (none, p)
  else
    let line := (pcurrent p).line
    let hook : Hook := ⟨name, [], [], [], [], line⟩
    let p2 :=
      if name = chars "useState" then
        paddSuggestion p line name
          (chars "Consider: server state, mintydyn State, or HTMX pattern") (chars "useState")
      else if name = chars "useEffect" then
        paddSuggestion p line name
          (chars "Consider: server-side logic, OnInit hook, or HTMX trigger") (chars "useEffect")
      else if name = chars "useMemo" ∨ name = chars "useCallback" then
        paddSuggestion p line name
          (chars "Consider: Go function or method - no memoization needed server-side") (chars "memoization")
      else if name = chars "useContext" then
        paddSuggestion p line name
          (chars "Consider: function parameters or Go context.Context") (chars "useContext")
      else if name = chars "useRef" then
        paddSuggestion p line name
          (chars "Consider: mi.ID() for DOM references in mintydyn hooks") (chars "useRef")
      else if name = chars "useReducer" then
        paddSuggestion p line name
          (chars "Consider: mintydyn Rules for state machines") (chars "useReducer")
      else p
    (some hook, p2)

/-- The statement loop of Parser.parseComponentBody: track brace depth,
collect hooks, and on `return` followed (after optional whitespace and an
opening parenthesis) by a tag, parse that node as the body. -/
def componentBodyLoop : Nat → PState → Int → List Hook →
    Option ((Option Node × List Hook) × PState)
  | 0, _, _, _ => none
  | f + 1, p, depth, hooks =>
    if pIsAtEnd p then some ((none, hooks), p)
    else
      let tok := pcurrent p
      let isOpen := tok.typ = .TokenJSXExprOpen ∨ (tok.typ = .TokenIdent ∧ tok.value = chars "\x7b")
      let isClose := tok.typ = .TokenJSXExprClose ∨ (tok.typ = .TokenIdent ∧ tok.value = chars "\x7d")
      let depth2 := if isOpen then depth + 1 else if isClose then depth - 1 else depth
      if isClose ∧ depth2 < 0 then some ((none, hooks), p)
      else
        let dh := if tok.typ = .TokenIdent then detectHook p tok.value else (none, p)
        let hooks2 := match dh.1 with | some h => hooks ++ [h] | none => hooks
        if tok.typ = .TokenIdent ∧ tok.value = chars "return" then
          let p3 := skipWhitespace (padvance dh.2).2
          let m := pmatch p3 .TokenLParen
          let p4 := if m.1 then skipWhitespace m.2 else m.2
          if pcheck p4 .TokenTagOpen then
            (parseNode f p4).map fun r => ((r.1, hooks2), r.2)
          else componentBodyLoop f (padvance p4).2 depth2 hooks2
        else componentBodyLoop f (padvance dh.2).2 depth2 hooks2

/-- The complex-default collection loop of Parser.parseProps: token text up
to an unbalanced closer or a top-level comma, which stays unconsumed. -/
def propDefaultAux : Nat → PState → Int → List Char → List Char × PState
  | 0, p, _, acc => (acc, p)
  | g + 1, p, depth, acc =>
    if pIsAtEnd p then (acc, p)
    else
      let tok := pcurrent p
      if tok.typ = .TokenJSXExprOpen ∨ tok.typ = .TokenLParen then
        propDefaultAux g (padvance p).2 (depth + 1) (acc ++ tok.value)
      else if tok.typ = .TokenJSXExprClose ∨ tok.typ = .TokenRParen then
        if depth = 0 then (acc, p)
        else propDefaultAux g (padvance p).2 (depth - 1) (acc ++ tok.value)
      else if tok.typ = .TokenComma ∧ depth = 0 then (acc, p)
      else propDefaultAux g (padvance p).2 depth (acc ++ tok.value)

/-- The destructured-props loop of Parser.parseProps.  A token that is
neither whitespace, identifier, comma nor close brace makes no progress, so
the loop carries fuel. -/
def parsePropsLoop : Nat → PState → List CompProp → Option (List CompProp × PState)
  | 0, _, _ => none
  | f + 1, p, acc =>
    if ¬ pIsAtEnd p ∧ ¬ pcheck p .TokenJSXExprClose then
      let p1 := skipWhitespace p
      let r : List CompProp × PState :=
        if pcheck p1 .TokenIdent then
          let adv := padvance p1
          let me := pmatch (skipWhitespace adv.2) .TokenEquals
          if me.1 then
            let p3 := skipWhitespace me.2
            if pcheck p3 .TokenString then
              let adv2 := padvance p3
              (acc ++ [⟨adv.1.value, adv2.1.value, []⟩], adv2.2)
            else
              let rd := propDefaultAux (p3.tokens.length - p3.pos) p3 0 []
              (acc ++ [⟨adv.1.value, goTrimSpace rd.1, []⟩], rd.2)
          else (acc ++ [⟨adv.1.value, [], []⟩], me.2)
        else (acc, p1)
      parsePropsLoop f (pmatch (skipWhitespace r.2) .TokenComma).2 r.1
    else some (acc, p)

/-- Parser.parseProps. -/
def parseProps (fuel : Nat) (p0 : PState) : Option (List CompProp × PState) :=
  let p1 := skipWhitespace p0
  let m := pmatch p1 .TokenJSXExprOpen
  if m.1 then
    (parsePropsLoop fuel m.2 []).map fun r => (r.1, (pmatch r.2 .TokenJSXExprClose).2)
  else if pcheck m.2 .TokenIdent then
    let adv := padvance m.2
    some ([⟨adv.1.value, [], []⟩], adv.2)
  else some ([], m.2)

/-- Assignment into a Go `map[string]string` rendered as an association
list: overwrite the existing key in place, else append. -/
def assocSet {β : Type} (m : List (List Char × β)) (k : List Char) (v : β) :
    List (List Char × β) :=
  if m.any (fun kv => kv.1 = k) then m.map (fun kv => if kv.1 = k then (k, v) else kv)
  else m ++ [(k, v)]

/-- The named-imports loop of Parser.parseImport (fueled: a non-identifier,
non-comma token makes no progress). -/
def importNamedLoop : Nat → PState → List (List Char × List Char) →
    Option (List (List Char × List Char) × PState)
  | 0, _, _ => none
  | f + 1, p, acc =>
    if ¬ pIsAtEnd p ∧ ¬ pcheck p .TokenJSXExprClose then
      let p1 := skipWhitespace p
      let r : List (List Char × List Char) × PState :=
        if pcheck p1 .TokenIdent then
          let adv := padvance p1
          let name := adv.1.value
          let p2 := skipWhitespace adv.2
          if pcheckIdent p2 (chars "as") then
            let p3 := skipWhitespace (padvance p2).2
            if pcheck p3 .TokenIdent then
              let adv2 := padvance p3
              (assocSet acc name adv2.1.value, adv2.2)
            else (assocSet acc name name, p3)
          else (assocSet acc name name, p2)
        else (acc, p1)
      importNamedLoop f (pmatch (skipWhitespace r.2) .TokenComma).2 r.1
    else some (acc, p)

/-- The skip-to-statement-end loop at the end of Parser.parseImport. -/
def importSkipAux : Nat → PState → PState
  | 0, p => p
  | g + 1, p =>
    if pIsAtEnd p then p
    else
      let tok := pcurrent p
      if tok.typ = .TokenIdent ∧
          (tok.value = chars "import" ∨ tok.value = chars "export" ∨
           tok.value = chars "function" ∨ tok.value = chars "const") then p
      else importSkipAux g (padvance p).2

/-- Parser.parseImport. -/
def parseImport (fuel : Nat) (p : PState) : Option (Option ImportDecl × PState) :=
  let mi := pmatchIdent p (chars "import")
  if ¬ mi.1 then some (none, mi.2)
  else
    let line := (pcurrent mi.2).line
    let p1 := skipWhitespace mi.2
    let rDef : List Char × PState :=
      if pcheck p1 .TokenIdent ∧ ¬ pcheckIdent p1 (chars "from") then
        let adv := padvance p1
        if adv.1.value ≠ chars "\x7b" ∧ adv.1.value ≠ chars "*" then
          let p2 := skipWhitespace adv.2
          if pcheck p2 .TokenComma then (adv.1.value, skipWhitespace (padvance p2).2)
          else (adv.1.value, p2)
        else ([], adv.2)
      else ([], p1)
    let mo := pmatch rDef.2 .TokenJSXExprOpen
    (if mo.1 then
        (importNamedLoop fuel mo.2 []).map fun r =>
          (r.1, (pmatch r.2 .TokenJSXExprClose).2)
      else some ([], mo.2)).bind fun rn =>
      let mf := pmatchIdent (skipWhitespace rn.2) (chars "from")
      let rSrc : List Char × PState :=
        if mf.1 then
          let p4 := skipWhitespace mf.2
          if pcheck p4 .TokenString then
            let adv := padvance p4
            (adv.1.value, adv.2)
          else ([], p4)
        else ([], mf.2)
      let p5 := importSkipAux (rSrc.2.tokens.length - rSrc.2.pos) rSrc.2
      some (some ⟨rDef.1, rn.1, [], rSrc.1, line⟩, p5)

/-- Parser.parseComponent. -/
def parseComponent (fuel : Nat) (p : PState) : Option (Option Component × PState) :=
  let startLine := (pcurrent p).line
  let me := pmatchIdent p (chars "export")
  let p1 :=
    if me.1 then skipWhitespace (pmatchIdent (skipWhitespace me.2) (chars "default")).2
    else me.2
  let mc := pmatchIdent p1 (chars "const")
  let isArrow := mc.1
  let mfn := pmatchIdent mc.2 (chars "function")
  if ¬ mc.1 ∧ ¬ mfn.1 then some (none, mfn.2)
  else
    let pA := if mc.1 then mc.2 else mfn.2
    let p2 := skipWhitespace pA
    if ¬ pcheck p2 .TokenIdent then some (none, p2)
    else
      let adv := padvance p2
      let name := adv.1.value
      if ((match name.head? with
          | some c => decide ('a' ≤ c ∧ c ≤ 'z')
          | none => false) && ! goStartsWith name (chars "use")) = true then
        some (none, skipToNextStatement adv.2)
      else
        let p3 := skipWhitespace adv.2
        let p4 := if isArrow then skipWhitespace (pmatch p3 .TokenEquals).2 else p3
        let mlp := pmatch p4 .TokenLParen
        (if mlp.1 then
            (parseProps fuel mlp.2).map fun r => (r.1, (pmatch r.2 .TokenRParen).2)
          else some ([], mlp.2)).bind fun rp =>
          let p5 := skipWhitespace rp.2
          let p6 := if isArrow then skipWhitespace (pmatch p5 .TokenArrow).2 else p5
          (componentBodyLoop fuel p6 0 []).map fun rb =>
            (some ⟨name, rp.1, rb.1.1, rb.1.2, [], [], startLine⟩, rb.2)

/-- The main loop of Parser.Parse: imports, components, or skip. -/
def parseTopLoop : Nat → PState → List ImportDecl → List Component →
    Option ((List ImportDecl × List Component) × PState)
  | 0, _, _, _ => none
  | f + 1, p, imps, comps =>
    if pIsAtEnd p then some ((imps, comps), p)
    else
      let p1 := skipWhitespace p
      if pIsAtEnd p1 then some ((imps, comps), p1)
      else if pcheckIdent p1 (chars "import") then
        (parseImport f p1).bind fun r =>
          parseTopLoop f r.2
            (match r.1 with | some i => imps ++ [i] | none => imps) comps
      else if pcheckIdent p1 (chars "function") ∨ pcheckIdent p1 (chars "const") ∨
          pcheckIdent p1 (chars "export") then
        (parseComponent f p1).bind fun r =>
          parseTopLoop f r.2 imps
            (match r.1 with | some c => comps ++ [c] | none => comps)
      else parseTopLoop f (padvance p1).2 imps comps

/-- Parser.findComponentEnd. -/
def findComponentEnd (comps : List Component) (idx : Nat) : Nat :=
  match comps.get? (idx + 1) with
  | some c => c.LineNumber
  | none => 999999

/-- The association pass at the end of Parser.Parse: attach the extracted
state and derived variables to the component whose line range holds them. -/
def associateVars (comps : List Component) (svs : List StateVariable)
    (dvs : List DerivedVariable) : List Component :=
  comps.mapIdx fun i comp =>
    let e := findComponentEnd comps i
    { comp with
      StateVars := comp.StateVars ++
        svs.filter (fun sv => decide (comp.LineNumber ≤ sv.LineNumber) && decide (sv.LineNumber < e)),
      DerivedVars := comp.DerivedVars ++
        dvs.filter (fun dv => decide (comp.LineNumber ≤ dv.LineNumber) && decide (dv.LineNumber < e)) }

/-- Parser.Parse over NewParserWithSource(NewLexer(source).Tokenize(), source):
regex pre-extraction, the token loop, and the line-range association pass.
`none` means the given fuel does not cover the loop iterations and parse
depth the input needs. -/
def Parse (fuel : Nat) (source : List Char) : Option ParseResult :=
  let p0 : PState := ⟨Tokenize source, source, 0, [], []⟩
  let allStateVars := if source ≠ [] then extractUseStateVars source else []
  let allDerivedVars := if source ≠ [] then extractDerivedVars source allStateVars else []
  (parseTopLoop fuel p0 [] []).map fun r =>
    ⟨⟨r.1.1, associateVars r.1.2 allStateVars allDerivedVars, []⟩,
     r.2.warnings, r.2.suggestions⟩

set_option maxHeartbeats 1000000 in
/-- C8: parsing `function C(\x7bx\x7d)\x7b return <div>\x7bx\x7d</div>; \x7d` yields a
File with exactly one Component named `C`, parameter list exactly `[x]`, and
body an Element with tag `div` whose only child is an Expression node with
raw text `x` — with no imports, exports, warnings or suggestions.  Fuel 16
covers every loop and recursion this input needs. -/
theorem parse_simple_component_shape :
    Parse 16 (chars "function C(\x7bx\x7d)\x7b return <div>\x7bx\x7d</div>; \x7d") =
      some ⟨⟨[], [⟨chars "C", [⟨chars "x", [], []⟩],
        some (.element (chars "div") [] [.expr ⟨chars "x", 1⟩] false 1),
        [], [], [], 1⟩], []⟩, [], []⟩ := by
  rfl

/-- The C1 input `function C()\x7breturn <div \x7bx\x7d/>\x7d`: a component whose
returned element carries a braced non-spread expression attribute. -/
def c1src : List Char := chars "function C()\x7breturn <div \x7bx\x7d/>\x7d"

/-- Parser state over the C1 input at cursor position n (17 tokens; position
11 is the `\x7b` opening the attribute expression of the div). -/
def c1state (n : Nat) : PState := ⟨Tokenize c1src, c1src, n, [], []⟩

/-- At the braced non-spread attribute, parseAttribute consumes the open
brace, fails to see a spread, restores the cursor (ast.go:788 `p.pos--`) and
returns nil: the state is returned exactly as it came in. -/
theorem c1_parseAttribute_fix : parseAttribute (c1state 11) = (none, c1state 11) := rfl

/-- One iteration of the attribute loop from the stuck state returns to the
same state with one unit of fuel burned. -/
theorem c1_attrLoop_step (f : Nat) (acc : List Attribute) :
    elemAttrLoop (f + 1) (c1state 11) acc = elemAttrLoop f (c1state 11) acc := rfl

/-- The attribute loop never leaves the stuck state: it exhausts any fuel. -/
theorem c1_attrLoop_none : ∀ f acc, elemAttrLoop f (c1state 11) acc = none := by
  intro f
  induction f with
  | zero => intro acc; rfl
  | succ f ih => intro acc; rw [c1_attrLoop_step]; exact ih acc

/-- Entering the attribute loop right after the `div` tag name reaches the
stuck state after one whitespace skip. -/
theorem c1_attrLoop10_none : ∀ f, elemAttrLoop f (c1state 10) [] = none := by
  intro f
  cases f with
  | zero => rfl
  | succ f => exact c1_attrLoop_none f []

/-- parseElement on the `<div \x7bx\x7d/>` element never completes. -/
theorem c1_parseElement_none : ∀ f, parseElement f (c1state 8) = none := by
  intro f
  cases f with
  | zero => rfl
  | succ f => exact obind_none _ (c1_attrLoop10_none f)

/-- parseNode at the element start never completes. -/
theorem c1_parseNode_none : ∀ f, parseNode f (c1state 8) = none := by
  intro f
  cases f with
  | zero => rfl
  | succ f => exact c1_parseElement_none f

/-- The component-body loop at the `return` token never completes. -/
theorem c1_bodyLoop6_none : ∀ f, componentBodyLoop f (c1state 6) 1 [] = none := by
  intro f
  cases f with
  | zero => rfl
  | succ f => exact omap_none _ (c1_parseNode_none f)

/-- The component-body loop at the opening brace never completes. -/
theorem c1_bodyLoop5_none : ∀ f, componentBodyLoop f (c1state 5) 0 [] = none := by
  intro f
  cases f with
  | zero => rfl
  | succ f => exact c1_bodyLoop6_none f

/-- parseComponent on the C1 component never completes. -/
theorem c1_parseComponent_none : ∀ f, parseComponent f (c1state 0) = none := by
  intro f
  exact omap_none _ (c1_bodyLoop5_none f)

/-- The top-level parse loop on the C1 input never completes. -/
theorem c1_topLoop_none : ∀ f, parseTopLoop f (c1state 0) [] [] = none := by
  intro f
  cases f with
  | zero => rfl
  | succ f => exact obind_none _ (c1_parseComponent_none f)

/-- C1: the parse of `function C()\x7breturn <div \x7bx\x7d/>\x7d` does NOT
terminate.  parseAttribute meets the braced non-spread attribute `\x7bx\x7d`,
consumes the `\x7b`, sees no spread, backs the cursor up (ast.go:788) and
returns nil; parseElement's attribute loop (ast.go:674-684) then re-runs
parseAttribute from the identical state forever.  In the embedding every
loop and recursion carries fuel and returns `none` when it runs out; a
terminating run would return `some` for all sufficiently large fuel, but
here the fuel-indexed Parse returns `none` for EVERY fuel, which is
exactly non-termination of the source loop. -/
theorem parse_nonterminates_on_nonspread_brace_attribute (fuel : Nat) :
    Parse fuel c1src = none :=
  omap_none _ (c1_topLoop_none fuel)

/-- The pattern kinds of the detector (Go PatternType string constants,
plus the ad-hoc `effect` kind built in analyzeEffectUsage). -/
inductive PatternType where
  | tabs | accordion | filter | search | formDeps | modal | dropdown
  | pagination | infiniteScroll | darkMode | toggle | sortableTable | effect
deriving DecidableEq

/-- DetectedPattern (the Go field `Type` is spelled `typ`).  The three
opaque text payloads Description, ReactCode and MintyCode are omitted: the
spec treats them as free-form payload, the detector logic never reads them
(addPattern compares only Type and Line), and no claim mentions them. -/
structure DetectedPattern where
  typ : PatternType
  Line : Nat
  Confidence : ℚ
  StateVars : List (List Char)
  DerivedVars : List (List Char)
deriving DecidableEq

/-- Detector (its only state is the accumulated pattern list). -/
structure Detector where
  patterns : List DetectedPattern

/-- Detector.addPattern: drop the candidate if a recorded pattern already
has the same kind and line, else append it. -/
def addPattern (ps : List DetectedPattern) (p : DetectedPattern) : List DetectedPattern :=
  if ps.any (fun q => q.typ = p.typ ∧ q.Line = p.Line) then ps else ps ++ [p]

/-- The `stateNames` map of analyzeStatePatterns: keyed by the lowercased
variable name, later entries overwriting earlier ones, rendered as an
association list in insertion order (the embedding fixes Go's unspecified
map iteration order to insertion order; every rule emits one fixed
confidence per rule invocation, so the (kind, line, confidence) content is
order-independent). -/
def buildStateNames (svs : List StateVariable) : List (List Char × StateVariable) :=
  svs.foldl (fun m sv => assocSet m (goToLower sv.Name) sv) []

/-- Tab rule of analyzeStatePatterns: name holds `tab` or `selected`, state
is string-typed. -/
def tabRuleStep (ps : List DetectedPattern) (nsv : List Char × StateVariable) :
    List DetectedPattern :=
  if (goContains nsv.1 (chars "tab") ∨ goContains nsv.1 (chars "selected")) ∧
      nsv.2.InitType = chars "string" then
    addPattern ps ⟨.tabs, nsv.2.LineNumber, 0.85, [nsv.2.Name], []⟩
  else ps

/-- The confidence computed inside the filter rule: 0.95 when the component
has a derived `filter` variable (the hasDerivedFilter scan), else 0.7. -/
def filterConfidence (comp : Component) : ℚ :=
  if comp.DerivedVars.any (fun dv => dv.Operation = chars "filter") then 0.95 else 0.7

/-- Filter rule of analyzeStatePatterns: name holds `filter`, `search` or
`query`, state is string-typed; confidence per filterConfidence. -/
def filterRuleStep (comp : Component) (ps : List DetectedPattern)
    (nsv : List Char × StateVariable) : List DetectedPattern :=
  if (goContains nsv.1 (chars "filter") ∨ goContains nsv.1 (chars "search") ∨
      goContains nsv.1 (chars "query")) ∧ nsv.2.InitType = chars "string" then
    addPattern ps ⟨.filter, nsv.2.LineNumber, filterConfidence comp, [nsv.2.Name], []⟩
  else ps

/-- Boolean-state rule of analyzeStatePatterns: modal, else accordion, else
toggle, by name content. -/
def boolRuleStep (ps : List DetectedPattern) (nsv : List Char × StateVariable) :
    List DetectedPattern :=
  if nsv.2.InitType = chars "bool" then
    if goContains nsv.1 (chars "modal") ∨ goContains nsv.1 (chars "dialog") then
      addPattern ps ⟨.modal, nsv.2.LineNumber, 0.85, [nsv.2.Name], []⟩
    else if goContains nsv.1 (chars "open") ∨ goContains nsv.1 (chars "expanded") ∨
        goContains nsv.1 (chars "collapsed") then
      addPattern ps ⟨.accordion, nsv.2.LineNumber, 0.75, [nsv.2.Name], []⟩
    else if goContains nsv.1 (chars "active") ∨ goContains nsv.1 (chars "enabled") ∨
        goContains nsv.1 (chars "show") ∨ goContains nsv.1 (chars "visible") then
      addPattern ps ⟨.toggle, nsv.2.LineNumber, 0.7, [nsv.2.Name], []⟩
    else ps
  else ps

/-- Pagination rule of analyzeStatePatterns. -/
def pageRuleStep (ps : List DetectedPattern) (nsv : List Char × StateVariable) :
    List DetectedPattern :=
  if (goContains nsv.1 (chars "page") ∨ goContains nsv.1 (chars "offset")) ∧
      (nsv.2.InitType = chars "int" ∨ nsv.2.InitType = chars "float64") then
    addPattern ps ⟨.pagination, nsv.2.LineNumber, 0.8, [nsv.2.Name], []⟩
  else ps

/-- Sort rule of analyzeStatePatterns. -/
def sortRuleStep (ps : List DetectedPattern) (nsv : List Char × StateVariable) :
    List DetectedPattern :=
  if goContains nsv.1 (chars "sort") then
    addPattern ps ⟨.sortableTable, nsv.2.LineNumber, 0.8, [nsv.2.Name], []⟩
  else ps

/-- Detector.analyzeStatePatterns: the five rule loops over stateNames, in
source order. -/
def analyzeStatePatterns (ps : List DetectedPattern) (comp : Component) :
    List DetectedPattern :=
  let stateNames := buildStateNames comp.StateVars
  let ps1 := stateNames.foldl tabRuleStep ps
  let ps2 := stateNames.foldl (filterRuleStep comp) ps1
  let ps3 := stateNames.foldl boolRuleStep ps2
  let ps4 := stateNames.foldl pageRuleStep ps3
  stateNames.foldl sortRuleStep ps4

/-- One derived variable of Detector.analyzeDerivedPatterns: a standalone
filter (only when no filter pattern was recorded yet) or a sort. -/
def derivedPatternStep (ps : List DetectedPattern) (dv : DerivedVariable) :
    List DetectedPattern :=
  if dv.Operation = chars "filter" then
    if ps.any (fun p => p.typ = .filter) then ps
    else addPattern ps ⟨.filter, dv.LineNumber, 0.65, [], [dv.Name]⟩
  else if dv.Operation = chars "sort" then
    addPattern ps ⟨.sortableTable, dv.LineNumber, 0.75, [], [dv.Name]⟩
  else ps

/-- Detector.analyzeDerivedPatterns. -/
def analyzeDerivedPatterns (ps : List DetectedPattern) (comp : Component) :
    List DetectedPattern :=
  comp.DerivedVars.foldl derivedPatternStep ps

/-- Detector.analyzeStateUsage: hook-name based rules (the five independent
conditions, in source order). -/
def analyzeStateUsage (ps : List DetectedPattern) (hook : Hook) : List DetectedPattern :=
  let name := goToLower hook.Name
  let ps1 :=
    if goContains name (chars "tab") ∨ goContains name (chars "active") then
      addPattern ps ⟨.tabs, hook.LineNumber, 0.7, [], []⟩
    else ps
  let ps2 :=
    if goContains name (chars "filter") ∨ goContains name (chars "search") ∨
        goContains name (chars "query") then
      addPattern ps1 ⟨.filter, hook.LineNumber, 0.8, [], []⟩
    else ps1
  let ps3 :=
    if goContains name (chars "modal") ∨ goContains name (chars "open") ∨
        goContains name (chars "show") then
      addPattern ps2 ⟨.modal, hook.LineNumber, 0.6, [], []⟩
    else ps2
  let ps4 :=
    if goContains name (chars "dark") ∨ goContains name (chars "theme") then
      addPattern ps3 ⟨.darkMode, hook.LineNumber, 0.9, [], []⟩
    else ps3
  if goContains name (chars "page") ∨ goContains name (chars "offset") ∨
      goContains name (chars "limit") then
    addPattern ps4 ⟨.pagination, hook.LineNumber, 0.7, [], []⟩
  else ps4

/-- Detector.analyzeEffectUsage. -/
def analyzeEffectUsage (ps : List DetectedPattern) (hook : Hook) : List DetectedPattern :=
  addPattern ps ⟨.effect, hook.LineNumber, 0.5, [], []⟩

/-- The hook dispatch of Detector.analyzeComponent. -/
def hookUsageStep (ps : List DetectedPattern) (hook : Hook) : List DetectedPattern :=
  if hook.typ = chars "useState" then analyzeStateUsage ps hook
  else if hook.typ = chars "useEffect" then analyzeEffectUsage ps hook
  else ps

/-- Detector.analyzeComponent. -/
def analyzeComponent (ps : List DetectedPattern) (comp : Component) : List DetectedPattern :=
  comp.Hooks.foldl hookUsageStep
    (analyzeDerivedPatterns (analyzeStatePatterns ps comp) comp)

/-- Detector.Analyze: reset the pattern accumulator, analyze every
component, return the accumulated patterns (and the updated detector). -/
def Analyze (d : Detector) (comps : List Component) : List DetectedPattern × Detector :=
  let ps := comps.foldl analyzeComponent []
  (ps, ⟨ps⟩)

/-- Two detector records differ in kind or line (the addPattern dedup key). -/
def distinctKey (a b : DetectedPattern) : Prop := ¬ (a.typ = b.typ ∧ a.Line = b.Line)

/-- addPattern only ever extends the record list. -/
theorem addPattern_subset (ps : List DetectedPattern) (p : DetectedPattern) :
    ps ⊆ addPattern ps p := by
  intro q hq
  unfold addPattern
  split
  · exact hq
  · exact List.mem_append_left _ hq

/-- A member of addPattern ps p is an old record or the candidate. -/
theorem mem_addPattern {ps : List DetectedPattern} {p q : DetectedPattern}
    (h : q ∈ addPattern ps p) : q ∈ ps ∨ q = p := by
  unfold addPattern at h
  split at h
  · exact Or.inl h
  · rcases List.mem_append.mp h with h1 | h2
    · exact Or.inl h1
    · exact Or.inr (List.mem_singleton.mp h2)

/-- addPattern preserves pairwise (kind, line) distinctness: the candidate
is appended only when no recorded pattern shares its key. -/
theorem addPattern_pairwise {ps : List DetectedPattern} {p : DetectedPattern}
    (h : List.Pairwise distinctKey ps) :
    List.Pairwise distinctKey (addPattern ps p) := by
  unfold addPattern
  split
  · exact h
  · rename_i hany
    rw [List.pairwise_append]
    refine ⟨h, List.pairwise_singleton _ _, ?_⟩
    intro a ha b hb
    rw [List.mem_singleton] at hb
    subst hb
    intro hc
    exact hany (List.any_eq_true.mpr ⟨a, ha, by simpa using hc⟩)

/-- An invariant preserved by every fold step holds of the fold. -/
theorem foldl_inv {σ α : Type} (Inv : σ → Prop) (step : σ → α → σ)
    (h : ∀ s x, Inv s → Inv (step s x)) :
    ∀ (l : List α) (s : σ), Inv s → Inv (List.foldl step s l) := by
  intro l
  induction l with
  | nil => intro s hs; exact hs
  | cons x l ih => intro s hs; exact ih (step s x) (h s x hs)

/-- Every state-rule step preserves pairwise key distinctness. -/
theorem tabRuleStep_pairwise (s : List DetectedPattern) (x : List Char × StateVariable)
    (h : List.Pairwise distinctKey s) : List.Pairwise distinctKey (tabRuleStep s x) := by
  unfold tabRuleStep
  split_ifs <;> first | exact h | exact addPattern_pairwise h

/-- The filter rule preserves pairwise key distinctness. -/
theorem filterRuleStep_pairwise (comp : Component) (s : List DetectedPattern)
    (x : List Char × StateVariable) (h : List.Pairwise distinctKey s) :
    List.Pairwise distinctKey (filterRuleStep comp s x) := by
  unfold filterRuleStep
  split_ifs <;> first | exact h | exact addPattern_pairwise h

/-- The boolean-state rule preserves pairwise key distinctness. -/
theorem boolRuleStep_pairwise (s : List DetectedPattern) (x : List Char × StateVariable)
    (h : List.Pairwise distinctKey s) : List.Pairwise distinctKey (boolRuleStep s x) := by
  unfold boolRuleStep
  split_ifs <;> first | exact h | exact addPattern_pairwise h

/-- The pagination rule preserves pairwise key distinctness. -/
theorem pageRuleStep_pairwise (s : List DetectedPattern) (x : List Char × StateVariable)
    (h : List.Pairwise distinctKey s) : List.Pairwise distinctKey (pageRuleStep s x) := by
  unfold pageRuleStep
  split_ifs <;> first | exact h | exact addPattern_pairwise h

/-- The sort rule preserves pairwise key distinctness. -/
theorem sortRuleStep_pairwise (s : List DetectedPattern) (x : List Char × StateVariable)
    (h : List.Pairwise distinctKey s) : List.Pairwise distinctKey (sortRuleStep s x) := by
  unfold sortRuleStep
  split_ifs <;> first | exact h | exact addPattern_pairwise h

/-- analyzeStatePatterns preserves pairwise key distinctness. -/
theorem analyzeStatePatterns_pairwise (s : List DetectedPattern) (comp : Component)
    (h : List.Pairwise distinctKey s) :
    List.Pairwise distinctKey (analyzeStatePatterns s comp) := by
  unfold analyzeStatePatterns
  exact foldl_inv _ _ sortRuleStep_pairwise _ _
    (foldl_inv _ _ pageRuleStep_pairwise _ _
      (foldl_inv _ _ boolRuleStep_pairwise _ _
        (foldl_inv _ _ (filterRuleStep_pairwise comp) _ _
          (foldl_inv _ _ tabRuleStep_pairwise _ _ h))))

/-- The derived-variable step preserves pairwise key distinctness. -/
theorem derivedPatternStep_pairwise (s : List DetectedPattern) (dv : DerivedVariable)
    (h : List.Pairwise distinctKey s) :
    List.Pairwise distinctKey (derivedPatternStep s dv) := by
  unfold derivedPatternStep
  split_ifs <;> first | exact h | exact addPattern_pairwise h

/-- The hook-name rules preserve pairwise key distinctness. -/
theorem analyzeStateUsage_pairwise (s : List DetectedPattern) (hook : Hook)
    (h : List.Pairwise distinctKey s) :
    List.Pairwise distinctKey (analyzeStateUsage s hook) := by
  unfold analyzeStateUsage
  dsimp only
  split_ifs <;> (repeat apply addPattern_pairwise) <;> exact h

/-- The hook dispatch preserves pairwise key distinctness. -/
theorem hookUsageStep_pairwise (s : List DetectedPattern) (hook : Hook)
    (h : List.Pairwise distinctKey s) :
    List.Pairwise distinctKey (hookUsageStep s hook) := by
  unfold hookUsageStep analyzeEffectUsage
  split_ifs
  · exact analyzeStateUsage_pairwise s hook h
  · exact addPattern_pairwise h
  · exact h

/-- analyzeComponent preserves pairwise key distinctness. -/
theorem analyzeComponent_pairwise (s : List DetectedPattern) (comp : Component)
    (h : List.Pairwise distinctKey s) :
    List.Pairwise distinctKey (analyzeComponent s comp) := by
  unfold analyzeComponent analyzeDerivedPatterns
  exact foldl_inv _ _ hookUsageStep_pairwise _ _
    (foldl_inv _ _ derivedPatternStep_pairwise _ _
      (analyzeStatePatterns_pairwise s comp h))

/-- C6: rerunning the detector on the same components yields the same
record list (Analyze resets the accumulator before analyzing, so the
detector state left by the first run is irrelevant), and within one run no
two records share both kind and line (addPattern's dedup key).  The
embedding fixes Go's unspecified map iteration order to insertion order;
each state rule emits a single fixed confidence per invocation, so the
(kind, line, confidence) content the claim speaks about does not depend on
that order. -/
theorem detector_rerun_agrees_and_dedups (d : Detector) (comps : List Component) :
    (Analyze (Analyze d comps).2 comps).1 = (Analyze d comps).1 ∧
    List.Pairwise distinctKey (Analyze d comps).1 := by
  constructor
  · rfl
  · show List.Pairwise distinctKey (comps.foldl analyzeComponent [])
    exact foldl_inv _ _ analyzeComponent_pairwise comps [] List.Pairwise.nil

/-- assocSet keeps the invariant that every entry under key k is (k, sv),
provided the inserted pair also respects it. -/
theorem assocSet_A (m : List (List Char × StateVariable)) (k : List Char)
    (sv : StateVariable) (nk : List Char) (v : StateVariable)
    (hA : ∀ kv ∈ m, kv.1 = k → kv = (k, sv)) (hcase : nk = k → v = sv) :
    ∀ kv ∈ assocSet m nk v, kv.1 = k → kv = (k, sv) := by
  intro kv hkv hfst
  unfold assocSet at hkv
  split at hkv
  · rcases List.mem_map.mp hkv with ⟨kv0, hkv0, heq⟩
    by_cases h0 : kv0.1 = nk
    · rw [if_pos h0] at heq
      subst heq
      have hk : nk = k := hfst
      rw [hk, hcase hk]
    · rw [if_neg h0] at heq
      subst heq
      exact hA kv0 hkv0 hfst
  · rcases List.mem_append.mp hkv with h1 | h2
    · exact hA kv h1 hfst
    · rw [List.mem_singleton] at h2
      subst h2
      have hk : nk = k := hfst
      rw [hk, hcase hk]

/-- assocSet keeps an existing (k, sv) entry when any same-key insertion
carries the same value. -/
theorem assocSet_keep (m : List (List Char × StateVariable)) (k : List Char)
    (sv : StateVariable) (nk : List Char) (v : StateVariable)
    (hmem : (k, sv) ∈ m) (hcase : nk = k → v = sv) :
    (k, sv) ∈ assocSet m nk v := by
  unfold assocSet
  split
  · refine List.mem_map.mpr ⟨(k, sv), hmem, ?_⟩
    by_cases h : k = nk
    · rw [if_pos h, ← h, hcase h.symm]
    · rw [if_neg h]
  · exact List.mem_append_left _ hmem

/-- Inserting (k, sv) into a map whose key-k entries are all (k, sv) makes
(k, sv) a member. -/
theorem assocSet_new (m : List (List Char × StateVariable)) (k : List Char)
    (sv : StateVariable) (hA : ∀ kv ∈ m, kv.1 = k → kv = (k, sv)) :
    (k, sv) ∈ assocSet m k sv := by
  unfold assocSet
  split
  · rename_i hany
    rcases List.any_eq_true.mp hany with ⟨kv0, hkv0, hd⟩
    have h0 : kv0.1 = k := by simpa using hd
    refine List.mem_map.mpr ⟨kv0, hkv0, ?_⟩
    rw [if_pos h0]
  · exact List.mem_append_right _ (by simp)

/-- The stateNames fold: if sv is the only state variable lowercasing to k
among those still to process, and (k, sv) is already present or sv is still
to come, then the final map holds (k, sv). -/
theorem buildStateNamesAux (k : List Char) (sv : StateVariable) :
    ∀ (svs : List StateVariable) (m : List (List Char × StateVariable)),
      (∀ sv' ∈ svs, goToLower sv'.Name = k → sv' = sv) →
      (∀ kv ∈ m, kv.1 = k → kv = (k, sv)) →
      ((k, sv) ∈ m ∨ (sv ∈ svs ∧ goToLower sv.Name = k)) →
      (k, sv) ∈ List.foldl (fun m sv' => assocSet m (goToLower sv'.Name) sv') m svs := by
  intro svs
  induction svs with
  | nil =>
    intro m _ _ hB
    rcases hB with h | ⟨h, _⟩
    · exact h
    · exact absurd h (List.not_mem_nil sv)
  | cons x svs ih =>
    intro m hU hA hB
    have hx : goToLower x.Name = k → x = sv := hU x (List.mem_cons_self x svs)
    refine ih (assocSet m (goToLower x.Name) x)
      (fun sv' h => hU sv' (List.mem_cons_of_mem x h))
      (assocSet_A m k sv _ x hA hx) ?_
    rcases hB with hm | ⟨hsv, hkey⟩
    · exact Or.inl (assocSet_keep m k sv _ x hm hx)
    · by_cases hxk : goToLower x.Name = k
      · left
        have hxe : x = sv := hx hxk
        rw [hxk, hxe]
        exact assocSet_new m k sv hA
      · rcases List.mem_cons.mp hsv with rfl | h
        · exact absurd hkey hxk
        · exact Or.inr ⟨h, hkey⟩

/-- If sv is the unique state variable whose lowercased name is k, the
stateNames map binds k to sv. -/
theorem buildStateNames_mem (svs : List StateVariable) (k : List Char)
    (sv : StateVariable) (hmem : sv ∈ svs) (hk : goToLower sv.Name = k)
    (huniq : ∀ sv' ∈ svs, goToLower sv'.Name = k → sv' = sv) :
    (k, sv) ∈ buildStateNames svs := by
  unfold buildStateNames
  exact buildStateNamesAux k sv svs [] huniq (by intro kv h; exact absurd h (List.not_mem_nil kv))
    (Or.inr ⟨hmem, hk⟩)

/-- Every member of a record list survives addPattern, lifted to a
predicate: addPattern's output satisfies P when the input and candidate
do. -/
theorem addPattern_all {ps : List DetectedPattern} {p : DetectedPattern}
    (P : DetectedPattern → Prop) (h : ∀ q ∈ ps, P q) (hp : P p) :
    ∀ q ∈ addPattern ps p, P q := by
  intro q hq
  rcases mem_addPattern hq with h1 | rfl
  · exact h q h1
  · exact hp

/-- The filter rule only ever extends the record list. -/
theorem filterRuleStep_subset (comp : Component) (s : List DetectedPattern)
    (x : List Char × StateVariable) : s ⊆ filterRuleStep comp s x := by
  unfold filterRuleStep
  split_ifs
  · exact addPattern_subset _ _
  · exact fun q h => h

/-- The boolean-state rule only ever extends the record list. -/
theorem boolRuleStep_subset (s : List DetectedPattern) (x : List Char × StateVariable) :
    s ⊆ boolRuleStep s x := by
  unfold boolRuleStep
  split_ifs <;> first | exact fun q h => h | exact addPattern_subset _ _

/-- The pagination rule only ever extends the record list. -/
theorem pageRuleStep_subset (s : List DetectedPattern) (x : List Char × StateVariable) :
    s ⊆ pageRuleStep s x := by
  unfold pageRuleStep
  split_ifs
  · exact addPattern_subset _ _
  · exact fun q h => h

/-- The sort rule only ever extends the record list. -/
theorem sortRuleStep_subset (s : List DetectedPattern) (x : List Char × StateVariable) :
    s ⊆ sortRuleStep s x := by
  unfold sortRuleStep
  split_ifs
  · exact addPattern_subset _ _
  · exact fun q h => h

/-- The derived-variable step only ever extends the record list. -/
theorem derivedPatternStep_subset (s : List DetectedPattern) (dv : DerivedVariable) :
    s ⊆ derivedPatternStep s dv := by
  unfold derivedPatternStep
  split_ifs <;> first | exact fun q h => h | exact addPattern_subset _ _

/-- The hook-name rules only ever extend the record list. -/
theorem analyzeStateUsage_subset (s : List DetectedPattern) (hook : Hook) :
    s ⊆ analyzeStateUsage s hook := by
  unfold analyzeStateUsage
  dsimp only
  split_ifs <;>
    (intro q hq
     repeat' first | exact hq | apply addPattern_subset)

/-- The hook dispatch only ever extends the record list. -/
theorem hookUsageStep_subset (s : List DetectedPattern) (hook : Hook) :
    s ⊆ hookUsageStep s hook := by
  unfold hookUsageStep analyzeEffectUsage
  split_ifs
  · exact analyzeStateUsage_subset s hook
  · exact addPattern_subset _ _
  · exact fun q h => h

/-- A record present after the filter rule survives to the end of
analyzeComponent: every later rule and analysis only extends the list. -/
theorem analyzeComponent_mem_after_filter (comp : Component) (r : DetectedPattern)
    (ps2 : List DetectedPattern)
    (hr : r ∈ ps2) :
    r ∈ comp.Hooks.foldl hookUsageStep
      (comp.DerivedVars.foldl derivedPatternStep
        ((buildStateNames comp.StateVars).foldl sortRuleStep
          ((buildStateNames comp.StateVars).foldl pageRuleStep
            ((buildStateNames comp.StateVars).foldl boolRuleStep ps2)))) := by
  refine foldl_inv (fun s => r ∈ s) _ (fun s x h => hookUsageStep_subset s x h) _ _ ?_
  refine foldl_inv (fun s => r ∈ s) _ (fun s x h => derivedPatternStep_subset s x h) _ _ ?_
  refine foldl_inv (fun s => r ∈ s) _ (fun s x h => sortRuleStep_subset s x h) _ _ ?_
  refine foldl_inv (fun s => r ∈ s) _ (fun s x h => pageRuleStep_subset s x h) _ _ ?_
  exact foldl_inv (fun s => r ∈ s) _ (fun s x h => boolRuleStep_subset s x h) _ _ hr

/-- The tab rule preserves the filter-confidence invariant (it only adds
tab-kind records). -/
theorem tabRuleStep_FInv (comp : Component) (s : List DetectedPattern)
    (x : List Char × StateVariable)
    (h : ∀ q ∈ s, q.typ = .filter → q.Confidence = filterConfidence comp) :
    ∀ q ∈ tabRuleStep s x, q.typ = .filter → q.Confidence = filterConfidence comp := by
  unfold tabRuleStep
  split_ifs
  · exact addPattern_all _ h (fun ht => by simp at ht)
  · exact h

/-- The filter rule preserves the filter-confidence invariant (every record
it adds carries exactly filterConfidence). -/
theorem filterRuleStep_FInv (comp : Component) (s : List DetectedPattern)
    (x : List Char × StateVariable)
    (h : ∀ q ∈ s, q.typ = .filter → q.Confidence = filterConfidence comp) :
    ∀ q ∈ filterRuleStep comp s x, q.typ = .filter → q.Confidence = filterConfidence comp := by
  unfold filterRuleStep
  split_ifs
  · exact addPattern_all _ h (fun _ => rfl)
  · exact h

/-- Walking the filter rule over the stateNames entries: if the entries
hold (nk, sv) whose name part passes the filter/search/query test and whose
variable is string-typed, and every filter-kind record so far carries
filterConfidence, then some filter-kind record at sv's line with exactly
filterConfidence is present afterwards. -/
theorem filterRule_fold_exists (comp : Component) (nk : List Char) (sv : StateVariable)
    (hcond : (goContains nk (chars "filter") ∨ goContains nk (chars "search") ∨
      goContains nk (chars "query")) ∧ sv.InitType = chars "string") :
    ∀ (l : List (List Char × StateVariable)) (ps : List DetectedPattern),
      (∀ q ∈ ps, q.typ = .filter → q.Confidence = filterConfidence comp) →
      (nk, sv) ∈ l →
      ∃ r ∈ List.foldl (filterRuleStep comp) ps l,
        r.typ = .filter ∧ r.Line = sv.LineNumber ∧ r.Confidence = filterConfidence comp := by
  intro l
  induction l with
  | nil => intro ps _ h; exact absurd h (List.not_mem_nil _)
  | cons x l ih =>
    intro ps hInv hmem
    rcases List.mem_cons.mp hmem with rfl | hmem2
    · have hstep : ∃ r ∈ filterRuleStep comp ps (nk, sv),
          r.typ = .filter ∧ r.Line = sv.LineNumber ∧ r.Confidence = filterConfidence comp := by
        unfold filterRuleStep
        rw [if_pos hcond]
        unfold addPattern
        split
        · rename_i hany
          rcases List.any_eq_true.mp hany with ⟨q, hq, hd⟩
          have hql : q.typ = PatternType.filter ∧ q.Line = sv.LineNumber := by simpa using hd
          exact ⟨q, hq, hql.1, hql.2, hInv q hq hql.1⟩
        · exact ⟨_, List.mem_append_right _ (List.mem_singleton.mpr rfl), rfl, rfl, rfl⟩
      rcases hstep with ⟨r, hr, hprops⟩
      exact ⟨r, foldl_inv (fun s => r ∈ s) _
        (fun s x h => filterRuleStep_subset comp s x h) l _ hr, hprops⟩
    · exact ih (filterRuleStep comp ps x) (filterRuleStep_FInv comp ps x hInv) hmem2

/-- A component with two state variables whose names lowercase to `search`:
the string-typed `search` (line 5) and the int-typed `Search` (line 9). -/
def c7comp : Component :=
  ⟨chars "App", [], none, [],
   [⟨chars "search", chars "setSearch", chars "\x27\x27", chars "string", 5⟩,
    ⟨chars "Search", chars "setSearch2", chars "0", chars "int", 9⟩],
   [], 1⟩

/-- C7 counterexample: c7comp holds a String-kind state variable named
`search` and no derived variable, so the claim promises a Filter record
with confidence 0.7 — but the detector emits NO record at all: the
stateNames map is keyed by the lowercased name, so the later int-typed
`Search` shadows the string-typed `search`, and the shadowing entry fails
the string-type test of the filter rule. -/
theorem filter_shadowing_counterexample :
    (⟨chars "search", chars "setSearch", chars "\x27\x27", chars "string", 5⟩ : StateVariable)
        ∈ c7comp.StateVars ∧
    analyzeComponent [] c7comp = [] := by
  constructor
  · decide
  · decide

/-- C7 (amended): for a component holding a string-typed state variable
whose lowercased name is `search`, provided no other state variable of the
component lowercases to the same name (the stateNames map would otherwise
shadow it) and no filter-kind record is already recorded, the state
analysis emits a filter-kind record at that variable's line whose
confidence is exactly 0.95 when the component has a derived variable with
operation `filter` and exactly 0.7 otherwise. -/
theorem filter_rule_confidence (comp : Component) (ps0 : List DetectedPattern)
    (sv : StateVariable)
    (hmem : sv ∈ comp.StateVars)
    (hname : goToLower sv.Name = chars "search")
    (htype : sv.InitType = chars "string")
    (huniq : ∀ sv' ∈ comp.StateVars, goToLower sv'.Name = chars "search" → sv' = sv)
    (hnof : ∀ p ∈ ps0, p.typ ≠ .filter) :
    ∃ r ∈ analyzeComponent ps0 comp, r.typ = .filter ∧ r.Line = sv.LineNumber ∧
      r.Confidence = (if comp.DerivedVars.any (fun dv => dv.Operation = chars "filter")
        then (0.95 : ℚ) else 0.7) := by
  have hentry : (chars "search", sv) ∈ buildStateNames comp.StateVars :=
    buildStateNames_mem comp.StateVars (chars "search") sv hmem hname huniq
  have h0 : ∀ q ∈ ps0, q.typ = PatternType.filter → q.Confidence = filterConfidence comp :=
    fun q hq ht => absurd ht (hnof q hq)
  have h1 : ∀ q ∈ (buildStateNames comp.StateVars).foldl tabRuleStep ps0,
      q.typ = PatternType.filter → q.Confidence = filterConfidence comp :=
    foldl_inv
      (fun s => ∀ q ∈ s, q.typ = PatternType.filter → q.Confidence = filterConfidence comp)
      tabRuleStep (fun s x h => tabRuleStep_FInv comp s x h) _ ps0 h0
  have hcond : (goContains (chars "search") (chars "filter") ∨
      goContains (chars "search") (chars "search") ∨
      goContains (chars "search") (chars "query")) ∧ sv.InitType = chars "string" :=
    ⟨Or.inr (Or.inl (by decide)), htype⟩
  obtain ⟨r, hr, hrt, hrl, hrc⟩ :=
    filterRule_fold_exists comp (chars "search") sv hcond _ _ h1 hentry
  exact ⟨r, analyzeComponent_mem_after_filter comp r _ hr, hrt, hrl, hrc⟩

/-- A component with a single string-typed `search` state variable (line 5)
and one derived `filter` variable. -/
def c7wcomp : Component :=
  ⟨chars "App", [], none, [],
   [⟨chars "search", chars "setSearch", chars "\x27\x27", chars "string", 5⟩],
   [⟨chars "visible", chars "items.filter(x)", chars "items", chars "filter",
     chars "[]interface\x7b\x7d", [chars "items"], 7⟩],
   1⟩

/-- Witness for the amended C7 theorem at c7wcomp: the derived filter
variable is present, so the emitted filter record has confidence 0.95. -/
theorem filter_rule_confidence_witness :
    ∃ r ∈ analyzeComponent [] c7wcomp, r.typ = .filter ∧ r.Line = 5 ∧
      r.Confidence = (0.95 : ℚ) := by
  have h := filter_rule_confidence c7wcomp []
    ⟨chars "search", chars "setSearch", chars "\x27\x27", chars "string", 5⟩
    (by decide) (by decide) (by decide) (by decide)
    (fun p hp => absurd hp (List.not_mem_nil p))
  simpa using h

end Reminty
